import Mathlib

/-!
# Verification of the Snowflake → Ellie schema export engine

A shallow embedding, in Lean 4, of `src/python/ellie/snowflake.py` and
`src/python/ellie/ellie.py` from the `ellie-snowflake-python-script`
repository, together with proofs and refutations of the frozen claims
about it.

Modelling conventions:

* Database query results are inputs to the embedded functions.  A query
  that may raise is modelled as `Except String (List ρ)`: `.ok rows` is a
  successful fetch, `.error e` an exception raised by the client during
  `execute`/`fetchall`.
* Python dictionaries used as rows (the `DictCursor` rows consumed via
  `row.get(k, d)` and `row[k]`) are association lists
  `List (String × String)`; `dictGet` is `row[k]` returning `Option`
  (a `none` models the `KeyError` path), `dictGetD` is `row.get(k, d)`.
* The positional rows produced by `_query_schema_data` (lists
  `[table_schema, table_name, column_name, is_pk, data_type]`) are the
  structure `ColumnRow`.
* `uuid.uuid4()` is modelled by an identifier supply `ids : Nat → String`
  together with a counter in the export state: the n-th entity created
  receives identifier `ids n`.  Nothing constrains `ids`, which models
  the freshness-per-run (and run-to-run instability) of UUIDs.
* `grouped_rows` and `entity_ids` in `snowflake_export` are two Python
  dicts that are always written together at the same key (lines 146–148
  of snowflake.py) and never deleted from, so their key sets coincide at
  all times; they are embedded as the single insertion-ordered list
  `ExportState.grouped` of `GroupedEntry` records carrying both the attribute
  list and the generated identifier.  Python dicts preserve insertion
  order, which the list embedding mirrors.
-/

/-- One attribute of an entity:
`{"name": column_name, "metadata": {"PK": is_pk, "FK": ..., "DATA TYPE": data_type}}`
(snowflake.py lines 136–143). -/
structure Attribute where
  name : String
  pk : Bool
  fk : Bool
  dataType : String
deriving DecidableEq

/-- One endpoint of a relationship: the `sourceEntity` / `targetEntity`
objects of snowflake.py lines 176–187.  `typ` is the `startType` field for
the source endpoint and the `endType` field for the target endpoint. -/
structure RelEnd where
  id : String
  name : String
  typ : String
  attributeNames : List String
deriving DecidableEq

/-- A relationship in Ellie's format (snowflake.py lines 175–189). -/
structure Relationship where
  sourceEntity : RelEnd
  targetEntity : RelEnd
  description : List String
deriving DecidableEq

/-- An entity in Ellie's format (snowflake.py lines 199–203). -/
structure Entity where
  id : String
  name : String
  attributes : List Attribute
deriving DecidableEq

/-- The model document (snowflake.py lines 208–214).  The export writes
only `level`, `entities` and `relationships`; `name` is absent until
`ellie_model_import` sets it and `folderId` is absent until the caller
(app.py line 289) sets it, so both are `Option`s, `none` meaning the key
is absent from the dict. -/
structure Model where
  name : Option String
  level : String
  folderId : Option Int
  entities : List Entity
  relationships : List Relationship
deriving DecidableEq

/-- A raw row of a `DictCursor` result, as an association list. -/
abbrev Row := List (String × String)

/-- Python dict subscript `row[k]`: `none` models the `KeyError` path. -/
def dictGet (row : Row) (k : String) : Option String :=
  (row.find? (fun p => p.1 == k)).map (fun p => p.2)

/-- Python dict access `row.get(k, d)`. -/
def dictGetD (row : Row) (k d : String) : String :=
  (dictGet row k).getD d

/-- A positional row of `_query_schema_data`
(`[table_schema, table_name, column_name, is_pk, data_type]`,
snowflake.py lines 500–506). -/
structure ColumnRow where
  tableSchema : String
  tableName : String
  columnName : String
  isPk : Bool
  dataType : String
deriving DecidableEq

/-- The six fields read out of a foreign-key row at snowflake.py lines
156–161. -/
structure FkParsed where
  fkSchema : String
  fkTable : String
  fkColumn : String
  pkSchema : String
  pkTable : String
  pkColumn : String
deriving DecidableEq

/-- The six `fk[...]` subscript reads of snowflake.py lines 156–161.
Each is a `dict[key]` access; if any key is missing the `KeyError` is
caught by the surrounding `try`/`except` (lines 154, 195–196), so the
whole row yields `none` and is skipped. -/
def parseFkRow (r : Row) : Option FkParsed := do
  let fs ← dictGet r "fk_schema_name"
  let ft ← dictGet r "fk_table_name"
  let fc ← dictGet r "fk_column_name"
  let ps ← dictGet r "pk_schema_name"
  let pt ← dictGet r "pk_table_name"
  let pc ← dictGet r "pk_column_name"
  pure ⟨fs, ft, fc, ps, pt, pc⟩

/-- One entry of the grouped state: the attribute list stored in
`grouped_rows[name]` together with the identifier stored in
`entity_ids[name]` (created together at snowflake.py lines 146–148). -/
structure GroupedEntry where
  name : String
  id : String
  attributes : List Attribute
deriving DecidableEq

/-- The mutable state of `snowflake_export`: `grouped_rows`/`entity_ids`
(merged, see module comment), the `relationships` list, and the count of
entities created so far (which indexes the identifier supply). -/
structure ExportState where
  grouped : List GroupedEntry
  rels : List Relationship
  counter : Nat
deriving DecidableEq

/-- Dict lookup `grouped_rows[n]` / `n in grouped_rows` (`entity_ids` has
the same key set). -/
def lookupGroup (gs : List GroupedEntry) (n : String) : Option GroupedEntry :=
  gs.find? (fun g => g.name == n)

/-- The attribute built for one column row (snowflake.py lines 136–143):
`FK` starts out `False` and is set later from foreign-key constraints. -/
def attrOfRow (r : ColumnRow) : Attribute :=
  { name := r.columnName, pk := r.isPk, fk := false, dataType := r.dataType }

/-- Appending `attribute` to `grouped_rows[n]["attributes"]`
(snowflake.py line 150); the key is already present. -/
def appendAttr (gs : List GroupedEntry) (n : String) (a : Attribute) : List GroupedEntry :=
  gs.map (fun g => if g.name = n then { g with attributes := g.attributes ++ [a] } else g)

/-- The loop body of `for row in schema_data` (snowflake.py lines
123–150): skip rows whose table is not in the filtered list, otherwise
append the column's attribute to its table's group, creating the group
(and generating its identifier) on first sight. -/
def processColumnRow (ids : Nat → String) (tables : List String)
    (st : ExportState) (r : ColumnRow) : ExportState :=
  if r.tableName ∈ tables then
    let a := attrOfRow r
    match lookupGroup st.grouped r.tableName with
    | some _ => { st with grouped := appendAttr st.grouped r.tableName a }
    | none =>
        { st with
          grouped := st.grouped ++ [⟨r.tableName, ids st.counter, [a]⟩],
          counter := st.counter + 1 }
  else st

/-- Marking the foreign-key column `fk_column` of table `fk_table` with
`FK = True` (snowflake.py lines 167–171): every attribute of that table
whose name matches is marked; if the table has no group this is a no-op
(the code guards with `if fk_table in grouped_rows`). -/
def markFk (gs : List GroupedEntry) (fkTable fkColumn : String) : List GroupedEntry :=
  gs.map (fun g =>
    if g.name = fkTable then
      { g with attributes :=
          g.attributes.map (fun a => if a.name = fkColumn then { a with fk := true } else a) }
    else g)

/-- The relationship literal of snowflake.py lines 175–189, given the
identifiers `entity_ids[pk_table]` and `entity_ids[fk_table]`. -/
def mkRelationship (pkId fkId : String) (f : FkParsed) : Relationship :=
  { sourceEntity := ⟨pkId, f.pkTable, "one", [f.pkColumn]⟩,
    targetEntity := ⟨fkId, f.fkTable, "many", [f.fkColumn]⟩,
    description := [] }

/-- The loop body of `for fk in foreign_keys` (snowflake.py lines
153–196): read the six fields (a missing key raises `KeyError`, caught by
the `except`, skipping the row); skip the row if either table is not in
the filtered list; mark the referencing column's `FK` flag; and append a
relationship when both tables have entries in `entity_ids`/`grouped_rows`. -/
def processFkRow (tables : List String) (st : ExportState) (r : Row) : ExportState :=
  match parseFkRow r with
  | none => st
  | some f =>
    if f.fkTable ∈ tables ∧ f.pkTable ∈ tables then
      let grouped1 := markFk st.grouped f.fkTable f.fkColumn
      match lookupGroup grouped1 f.pkTable, lookupGroup grouped1 f.fkTable with
      | some gp, some gf =>
          { st with grouped := grouped1,
                    rels := st.rels ++ [mkRelationship gp.id gf.id f] }
      | _, _ => { st with grouped := grouped1 }
    else st

/-- The per-schema inputs consumed by one iteration of the
`for schema in schemas` loop of `snowflake_export`:
`tables` is `[row['TABLE_NAME'] for row in _get_tables_and_views(...)]`
(line 113), `foreignKeys` is the result of `_get_foreign_keys(schema)`
(line 116), and `schemaData` the result of `_query_schema_data(schema)`
(line 120). -/
structure SchemaInput where
  tables : List String
  foreignKeys : List Row
  schemaData : List ColumnRow
deriving DecidableEq

/-- One iteration of the `for schema in schemas` loop (snowflake.py lines
101–196): skip empty schemas, then process all column rows, then all
foreign-key rows. -/
def processSchema (ids : Nat → String) (st : ExportState) (s : SchemaInput) : ExportState :=
  if s.tables = [] then st
  else
    let st1 := s.schemaData.foldl (processColumnRow ids s.tables) st
    s.foreignKeys.foldl (processFkRow s.tables) st1

/-- The export `snowflake_export` (snowflake.py lines 77–215), over the already
fetched per-schema query results: fold the per-schema loop over an empty
initial state and serialize the grouped rows into the model document
(lines 198–214).  The emitted dict has keys `level`, `entities`,
`relationships` only: no `name` and no `folderId`. -/
def snowflake_export (inputs : List SchemaInput) (ids : Nat → String) : Model :=
  let st := inputs.foldl (processSchema ids) ⟨[], [], 0⟩
  { name := none,
    level := "conceptual",
    folderId := none,
    entities := st.grouped.map (fun g => ⟨g.id, g.name, g.attributes⟩),
    relationships := st.rels }

/-- The fetcher `_get_tables_and_views` (snowflake.py lines 217–275).  `primary` is
the result of the `INFORMATION_SCHEMA.TABLES` query (already filtered
server-side by the table-type filter built from `include_views`);
`fallback` is the result of `SHOW TABLES IN SCHEMA`.  The outer
`try`/`except` turns any failure of the primary query into `return []`;
the inner `try`/`except` around the fallback logs and leaves `tables`
empty.  When the fallback succeeds its rows are kept as-is if views are
included, else filtered client-side on `t.get('kind','').upper() == 'TABLE'`. -/
def get_tables_and_views (primary fallback : Except String (List Row))
    (include_views : Bool) : List Row :=
  match primary with
  | .error _ => []
  | .ok tables =>
    if tables = [] then
      match fallback with
      | .error _ => []
      | .ok all_tables =>
          if include_views then all_tables
          else all_tables.filter (fun t => (dictGetD t "kind" "").toUpper == "TABLE")
    else tables

/-- The remapping of a `SHOW IMPORTED KEYS` row into the canonical
lowercase keys (snowflake.py lines 398–405): each canonical key takes the
row's alternate uppercase column when present, falling back to an
already-lowercase key, and finally to `''`. -/
def remapShowImportedKeysRow (r : Row) : Row :=
  [("fk_schema_name", dictGetD r "FK_DATABASE_NAME" (dictGetD r "fk_schema_name" "")),
   ("fk_table_name",  dictGetD r "FK_TABLE_NAME"  (dictGetD r "fk_table_name" "")),
   ("fk_column_name", dictGetD r "FK_COLUMN_NAME" (dictGetD r "fk_column_name" "")),
   ("pk_schema_name", dictGetD r "PK_DATABASE_NAME" (dictGetD r "pk_schema_name" "")),
   ("pk_table_name",  dictGetD r "PK_TABLE_NAME"  (dictGetD r "pk_table_name" "")),
   ("pk_column_name", dictGetD r "PK_COLUMN_NAME" (dictGetD r "pk_column_name" ""))]

/-- The fetcher `_get_foreign_keys` (snowflake.py lines 302–414) over the results of
its three query methods.  The loop tries each method in order; a raised
exception is caught and logged, an empty result does not `break`, and the
first non-empty result is taken — remapped through the
`SHOW IMPORTED KEYS` column-name adapter when it came from method 3.  If
all three fail or are empty, the initial `foreign_keys = []` is returned. -/
def get_foreign_keys (m1 m2 m3 : Except String (List Row)) : List Row :=
  match m1 with
  | .ok (r :: rs) => r :: rs
  | _ =>
    match m2 with
    | .ok (r :: rs) => r :: rs
    | _ =>
      match m3 with
      | .ok (r :: rs) => (r :: rs).map remapShowImportedKeysRow
      | _ => []

/-- The import `ellie_model_import` (ellie.py lines 48–53), restricted to its effect
on the model document: `model['model']['name'] = name` and
`model['model']['level'] = level`, before the document is posted.  The
`requests.post` call itself is outside the embedding. -/
def ellie_model_import_model (name : String) (level : String) (m : Model) : Model :=
  { m with name := some name, level := level }

/-- The attribute list stored for table `n` in the state, when present. -/
def groupAttrs (st : ExportState) (n : String) : Option (List Attribute) :=
  (lookupGroup st.grouped n).map (fun g => g.attributes)

/-- Appending freshly grouped items to an optional stored list: the dict
entry is created exactly when the first item arrives. -/
def pushNew {α : Type} : Option (List α) → List α → Option (List α)
  | some l, new => some (l ++ new)
  | none, [] => none
  | none, a :: new => some (a :: new)

/-- The foreign-key-flag-insensitive projection of an attribute: exactly
the data written by the column pass. -/
def projAttr (a : Attribute) : String × Bool × String := (a.name, a.pk, a.dataType)

/-- The projected column records a schema contributes to table `n`: its
in-scope catalog rows for that table, in catalog order. -/
def scopedProj (s : SchemaInput) (n : String) : List (String × Bool × String) :=
  if n ∈ s.tables then
    (s.schemaData.filter (fun r => r.tableName == n)).map
      (fun r => (r.columnName, r.isPk, r.dataType))
  else []

/-! ### Derived definitions used in the claim statements and proofs -/

/-- Whether one raw foreign-key row passes every check of the loop body
of snowflake.py lines 153–196 and reaches `relationships.append`: its six
keys are present, both tables are in the filtered list, and both tables
have entries in `entity_ids`/`grouped_rows`. -/
def fkEmits (tables : List String) (gs : List GroupedEntry) (r : Row) : Bool :=
  match parseFkRow r with
  | none => false
  | some f =>
      decide (f.fkTable ∈ tables) && decide (f.pkTable ∈ tables) &&
        (lookupGroup (markFk gs f.fkTable f.fkColumn) f.pkTable).isSome &&
        (lookupGroup (markFk gs f.fkTable f.fkColumn) f.fkTable).isSome

/-- The strategy yielded no usable rows: an empty result set, or a
raised exception (`_get_foreign_keys` advances past both). -/
def noRows (m : Except String (List Row)) : Prop :=
  m = .ok [] ∨ ∃ e, m = .error e

/-- Identifier erasure: everything of an entity except its generated id. -/
def eraseEntity (e : Entity) : String × List Attribute :=
  (e.name, e.attributes)

/-- Identifier erasure on a relationship endpoint. -/
def eraseRelEnd (p : RelEnd) : String × String × List String :=
  (p.name, p.typ, p.attributeNames)

/-- Identifier erasure on a relationship. -/
def eraseRelationship (r : Relationship) :
    (String × String × List String) × (String × String × List String) × List String :=
  (eraseRelEnd r.sourceEntity, eraseRelEnd r.targetEntity, r.description)

/-- Everything of the exported document except the generated entity
identifiers. -/
def eraseModel (m : Model) :
    Option String × String × Option Int × (List (String × List Attribute)) ×
      (List ((String × String × List String) × (String × String × List String) × List String)) :=
  (m.name, m.level, m.folderId, m.entities.map eraseEntity, m.relationships.map eraseRelationship)

/-- Identifier erasure on a grouped-state entry. -/
def eraseGroupedEntry (g : GroupedEntry) : String × List Attribute :=
  (g.name, g.attributes)

/-- The identifier-free part of the export state. -/
structure EState where
  grouped : List (String × List Attribute)
  rels : List ((String × String × List String) × (String × String × List String) × List String)
deriving DecidableEq

def eraseState (st : ExportState) : EState :=
  ⟨st.grouped.map eraseGroupedEntry, st.rels.map eraseRelationship⟩

def lookupEntryE (gs : List (String × List Attribute)) (n : String) :
    Option (String × List Attribute) :=
  gs.find? (fun g => g.1 == n)

def markFkE (gs : List (String × List Attribute)) (t c : String) :
    List (String × List Attribute) :=
  gs.map (fun g =>
    if g.1 = t then
      (g.1, g.2.map (fun a => if a.name = c then { a with fk := true } else a))
    else g)

/-- The step `processColumnRow` with the identifier generation erased. -/
def processColumnRowE (tables : List String) (st : EState) (r : ColumnRow) : EState :=
  if r.tableName ∈ tables then
    match lookupEntryE st.grouped r.tableName with
    | some _ =>
        { st with grouped :=
            st.grouped.map (fun g => if g.1 = r.tableName then (g.1, g.2 ++ [attrOfRow r]) else g) }
    | none => { st with grouped := st.grouped ++ [(r.tableName, [attrOfRow r])] }
  else st

/-- The step `processFkRow` with the identifiers erased. -/
def processFkRowE (tables : List String) (st : EState) (r : Row) : EState :=
  match parseFkRow r with
  | none => st
  | some f =>
    if f.fkTable ∈ tables ∧ f.pkTable ∈ tables then
      let g1 := markFkE st.grouped f.fkTable f.fkColumn
      match lookupEntryE g1 f.pkTable, lookupEntryE g1 f.fkTable with
      | some _, some _ =>
          ⟨g1, st.rels ++
            [((f.pkTable, "one", [f.pkColumn]), (f.fkTable, "many", [f.fkColumn]), [])]⟩
      | _, _ => ⟨g1, st.rels⟩
    else st

/-- The step `processSchema` with the identifiers erased. -/
def processSchemaE (st : EState) (s : SchemaInput) : EState :=
  if s.tables = [] then st
  else
    let st1 := s.schemaData.foldl (processColumnRowE s.tables) st
    s.foreignKeys.foldl (processFkRowE s.tables) st1

/-- The identifier-free content of `snowflake_export`. -/
def snowflake_exportE (inputs : List SchemaInput) :
    Option String × String × Option Int × (List (String × List Attribute)) ×
      (List ((String × String × List String) × (String × String × List String) × List String)) :=
  let st := inputs.foldl processSchemaE ⟨[], []⟩
  (none, "conceptual", none, st.grouped, st.rels)

/-! ### Concrete inputs used by counterexamples and witnesses -/

/-- A concrete identifier supply standing in for `uuid.uuid4()`. -/
def demoIds : Nat → String := fun n => "E" ++ Nat.repr n

/-- The raw foreign-key row `ORDERS.customer_id → CUSTOMERS.id` of the
specification scenario. -/
def demoFkRow : Row :=
  [("fk_schema_name", "PUBLIC"), ("fk_table_name", "ORDERS"),
   ("fk_column_name", "customer_id"), ("pk_schema_name", "PUBLIC"),
   ("pk_table_name", "CUSTOMERS"), ("pk_column_name", "id")]

/-- The specification scenario: `ORDERS(id PK, customer_id FK)` and
`CUSTOMERS(id PK)` with one constraint `ORDERS.customer_id → CUSTOMERS.id`. -/
def demoInput : SchemaInput :=
  { tables := ["ORDERS", "CUSTOMERS"],
    foreignKeys := [demoFkRow],
    schemaData :=
      [⟨"PUBLIC", "ORDERS", "id", true, "NUMBER"⟩,
       ⟨"PUBLIC", "ORDERS", "customer_id", false, "NUMBER"⟩,
       ⟨"PUBLIC", "CUSTOMERS", "id", true, "NUMBER"⟩] }

/-- The scenario with the same raw foreign-key row reported twice. -/
def dupInput : SchemaInput := { demoInput with foreignKeys := [demoFkRow, demoFkRow] }

/-- A foreign-key row whose referenced column `A.ghost` does not occur in
the column catalog (tables `A(x)`, `B(y)` both in scope). -/
def c2Input : SchemaInput :=
  { tables := ["A", "B"],
    foreignKeys :=
      [[("fk_schema_name", "S"), ("fk_table_name", "B"), ("fk_column_name", "y"),
        ("pk_schema_name", "S"), ("pk_table_name", "A"), ("pk_column_name", "ghost")]],
    schemaData := [⟨"S", "A", "x", true, "TEXT"⟩, ⟨"S", "B", "y", false, "TEXT"⟩] }

/-- A raw foreign-key row for the edge `B.y → A.x`. -/
def c4FkRow : Row :=
  [("fk_schema_name", "S"), ("fk_table_name", "B"), ("fk_column_name", "y"),
   ("pk_schema_name", "S"), ("pk_table_name", "A"), ("pk_column_name", "x")]

/-- A foreign-key edge `B.y → A.x` whose referenced table `A` is in
scope but has no rows in the column catalog. -/
def c4Input : SchemaInput :=
  { tables := ["A", "B"],
    foreignKeys := [c4FkRow],
    schemaData := [⟨"S", "B", "y", false, "TEXT"⟩] }

/-- A `SHOW IMPORTED KEYS` row in the alternate uppercase column-name
convention of method 3. -/
def upperRow : Row :=
  [("FK_DATABASE_NAME", "PUBLIC"), ("FK_TABLE_NAME", "ORDERS"),
   ("FK_COLUMN_NAME", "customer_id"), ("PK_DATABASE_NAME", "PUBLIC"),
   ("PK_TABLE_NAME", "CUSTOMERS"), ("PK_COLUMN_NAME", "id")]

/-- First of two schemas that both contain a table named `T`. -/
def twoSchemaA : SchemaInput :=
  { tables := ["T"], foreignKeys := [], schemaData := [⟨"S1", "T", "a", true, "NUMBER"⟩] }

/-- Second of two schemas that both contain a table named `T`. -/
def twoSchemaB : SchemaInput :=
  { tables := ["T"], foreignKeys := [], schemaData := [⟨"S2", "T", "b", false, "TEXT"⟩] }

/-! ### Basic properties of the grouped state -/

/-- A helper for update functions that preserve entry names: looking up
after mapping such a function is mapping after looking up. -/
theorem lookupGroup_map (u : GroupedEntry → GroupedEntry)
    (hu : ∀ g, (u g).name = g.name) (gs : List GroupedEntry) (n : String) :
    lookupGroup (gs.map u) n = (lookupGroup gs n).map u := by
  unfold lookupGroup
  rw [List.find?_map]
  have : ((fun g : GroupedEntry => g.name == n) ∘ u) = (fun g : GroupedEntry => g.name == n) := by
    funext g; simp [hu]
  rw [this]

theorem lookupGroup_eq_none_iff (gs : List GroupedEntry) (n : String) :
    lookupGroup gs n = none ↔ ∀ g ∈ gs, g.name ≠ n := by
  simp [lookupGroup, List.find?_eq_none]

theorem lookupGroup_isSome_iff (gs : List GroupedEntry) (n : String) :
    (lookupGroup gs n).isSome ↔ ∃ g ∈ gs, g.name = n := by
  simp [lookupGroup, List.find?_isSome]

theorem lookupGroup_mem (gs : List GroupedEntry) (g : GroupedEntry)
    (h : lookupGroup gs g.name = some g) : g ∈ gs := by
  exact List.mem_of_find?_eq_some h

/-- With pairwise distinct names, the lookup of a member's name finds
that member. -/
theorem lookupGroup_of_mem_nodup (gs : List GroupedEntry) (g : GroupedEntry)
    (hnd : (gs.map (fun x => x.name)).Nodup) (hg : g ∈ gs) :
    lookupGroup gs g.name = some g := by
  induction gs with
  | nil => cases hg
  | cons x xs ih =>
    rw [List.map_cons, List.nodup_cons] at hnd
    rcases List.mem_cons.mp hg with h | h
    · subst h; simp [lookupGroup, List.find?_cons]
    · have hx : x.name ≠ g.name := by
        intro he
        exact hnd.1 (he ▸ List.mem_map_of_mem (fun x => x.name) h)
      have hxf : (x.name == g.name) = false := by simpa using hx
      simp only [lookupGroup, List.find?_cons, hxf]
      exact ih hnd.2 h

theorem appendAttr_names (gs : List GroupedEntry) (n : String) (a : Attribute) :
    (appendAttr gs n a).map (fun g => g.name) = gs.map (fun g => g.name) := by
  unfold appendAttr
  rw [List.map_map]
  apply List.map_congr_left
  intro g _
  by_cases h : g.name = n <;> simp [h]

theorem markFk_names (gs : List GroupedEntry) (t c : String) :
    (markFk gs t c).map (fun g => g.name) = gs.map (fun g => g.name) := by
  unfold markFk
  rw [List.map_map]
  apply List.map_congr_left
  intro g _
  by_cases h : g.name = t <;> simp [h]

theorem lookupGroup_appendAttr (gs : List GroupedEntry) (n m : String) (a : Attribute) :
    lookupGroup (appendAttr gs n a) m =
      (lookupGroup gs m).map
        (fun g => if g.name = n then { g with attributes := g.attributes ++ [a] } else g) := by
  exact lookupGroup_map _ (fun g => by by_cases h : g.name = n <;> simp [h]) gs m

theorem lookupGroup_markFk (gs : List GroupedEntry) (t c m : String) :
    lookupGroup (markFk gs t c) m =
      (lookupGroup gs m).map
        (fun g => if g.name = t then
          { g with attributes :=
              g.attributes.map (fun a => if a.name = c then { a with fk := true } else a) }
          else g) := by
  exact lookupGroup_map _ (fun g => by by_cases h : g.name = t <;> simp [h]) gs m

theorem lookupGroup_some_name (gs : List GroupedEntry) (n : String) (g : GroupedEntry)
    (h : lookupGroup gs n = some g) : g.name = n := by
  have := List.find?_some h
  simpa using this

/-! ### Attribute accumulation through the export folds -/

theorem pushNew_nil {α : Type} (o : Option (List α)) : pushNew o [] = o := by
  cases o <;> simp [pushNew]

theorem pushNew_append {α : Type} (o : Option (List α)) (a b : List α) :
    pushNew (pushNew o a) b = pushNew o (a ++ b) := by
  cases o with
  | some l => simp [pushNew]
  | none =>
    cases a with
    | nil => simp [pushNew]
    | cons x xs => cases b <;> simp [pushNew]

theorem pushNew_map {α β : Type} (f : α → β) (o : Option (List α)) (new : List α) :
    (pushNew o new).map (List.map f) = pushNew (o.map (List.map f)) (new.map f) := by
  cases o with
  | some l => simp [pushNew]
  | none => cases new <;> simp [pushNew]

theorem pushNew_isSome {α : Type} (o : Option (List α)) (new : List α) :
    (pushNew o new).isSome ↔ o.isSome ∨ new ≠ [] := by
  cases o with
  | some l => simp [pushNew]
  | none => cases new <;> simp [pushNew]

/-- Effect of one column row on the stored attributes of table `n`. -/
theorem groupAttrs_processColumnRow (ids : Nat → String) (tables : List String)
    (st : ExportState) (r : ColumnRow) (n : String) :
    groupAttrs (processColumnRow ids tables st r) n =
      pushNew (groupAttrs st n)
        (if n ∈ tables ∧ r.tableName = n then [attrOfRow r] else []) := by
  by_cases hmem : r.tableName ∈ tables
  · cases hl : lookupGroup st.grouped r.tableName with
    | some g =>
      have hstep : processColumnRow ids tables st r
          = { st with grouped := appendAttr st.grouped r.tableName (attrOfRow r) } := by
        simp [processColumnRow, hmem, hl]
      rw [hstep]
      by_cases hn : r.tableName = n
      · subst hn
        have hgn : g.name = r.tableName := lookupGroup_some_name _ _ _ hl
        simp [groupAttrs, lookupGroup_appendAttr, hl, hgn, pushNew, hmem]
      · have hcond : ¬ (n ∈ tables ∧ r.tableName = n) := fun h => hn h.2
        cases hln : lookupGroup st.grouped n with
        | none => simp [groupAttrs, lookupGroup_appendAttr, hln, hcond, pushNew_nil]
        | some g' =>
          have hg'n : g'.name = n := lookupGroup_some_name _ _ _ hln
          have hne : ¬ (g'.name = r.tableName) := by
            rw [hg'n]; exact fun h => hn h.symm
          simp [groupAttrs, lookupGroup_appendAttr, hln, hcond, pushNew_nil, hne]
    | none =>
      have hstep : processColumnRow ids tables st r
          = { st with
              grouped := st.grouped ++ [⟨r.tableName, ids st.counter, [attrOfRow r]⟩],
              counter := st.counter + 1 } := by
        simp [processColumnRow, hmem, hl]
      rw [hstep]
      by_cases hn : r.tableName = n
      · subst hn
        have hlook : lookupGroup (st.grouped ++ [⟨r.tableName, ids st.counter, [attrOfRow r]⟩])
            r.tableName = some ⟨r.tableName, ids st.counter, [attrOfRow r]⟩ := by
          unfold lookupGroup at hl ⊢
          rw [List.find?_append, hl]
          simp
        simp [groupAttrs, hlook, hl, hmem, pushNew]
      · have hcond : ¬ (n ∈ tables ∧ r.tableName = n) := fun h => hn h.2
        have hlook : lookupGroup (st.grouped ++ [⟨r.tableName, ids st.counter, [attrOfRow r]⟩]) n
            = lookupGroup st.grouped n := by
          unfold lookupGroup
          rw [List.find?_append]
          have : List.find? (fun g => g.name == n)
              ([⟨r.tableName, ids st.counter, [attrOfRow r]⟩] : List GroupedEntry) = none := by
            simp [hn]
          rw [this, Option.or_none]
        simp [groupAttrs, hlook, hcond, pushNew_nil]
  · have hcond : ¬ (n ∈ tables ∧ r.tableName = n) := by
      rintro ⟨h1, h2⟩; exact hmem (h2 ▸ h1)
    simp [processColumnRow, hmem, hcond, pushNew_nil]

/-- Effect of the whole column loop of one schema on the stored
attributes of table `n`: the in-scope rows of that table are appended in
catalog order. -/
theorem groupAttrs_colFold (ids : Nat → String) (tables : List String)
    (rows : List ColumnRow) (st : ExportState) (n : String) :
    groupAttrs (rows.foldl (processColumnRow ids tables) st) n =
      pushNew (groupAttrs st n)
        (if n ∈ tables then (rows.filter (fun r => r.tableName == n)).map attrOfRow else []) := by
  induction rows generalizing st with
  | nil => simp [pushNew_nil]
  | cons r rs ih =>
    rw [List.foldl_cons, ih, groupAttrs_processColumnRow, pushNew_append]
    congr 1
    by_cases hmem : n ∈ tables
    · by_cases hr : r.tableName = n <;> simp [hmem, hr, List.filter_cons]
    · simp [hmem]

/-! ### Effect of the foreign-key pass on the grouped state -/

theorem projAttr_mark (c : String) (a : Attribute) :
    projAttr (if a.name = c then { a with fk := true } else a) = projAttr a := by
  by_cases h : a.name = c <;> simp [projAttr, h]

/-- The step `processFkRow` leaves the grouped dict alone or rewrites it through
`markFk`. -/
theorem grouped_processFkRow (tables : List String) (st : ExportState) (r : Row) :
    (processFkRow tables st r).grouped = st.grouped ∨
      ∃ f, parseFkRow r = some f ∧
        (processFkRow tables st r).grouped = markFk st.grouped f.fkTable f.fkColumn := by
  rcases hp : parseFkRow r with _ | f
  · left; simp [processFkRow, hp]
  · by_cases hsc : f.fkTable ∈ tables ∧ f.pkTable ∈ tables
    · right; refine ⟨f, rfl, ?_⟩
      simp only [processFkRow, hp, hsc, if_true]
      rcases lookupGroup (markFk st.grouped f.fkTable f.fkColumn) f.pkTable with _ | gp <;>
        rcases lookupGroup (markFk st.grouped f.fkTable f.fkColumn) f.fkTable with _ | gf <;>
        rfl
    · left; simp [processFkRow, hp, hsc]

theorem lookupGroup_markFk_proj (gs : List GroupedEntry) (t c n : String) :
    (lookupGroup (markFk gs t c) n).map (fun g => g.attributes.map projAttr) =
      (lookupGroup gs n).map (fun g => g.attributes.map projAttr) := by
  rw [lookupGroup_markFk]
  rcases lookupGroup gs n with _ | g
  · rfl
  · by_cases h : g.name = t <;> simp [h, List.map_map, Function.comp, projAttr_mark]

/-- The foreign-key pass never changes the projected attributes of any
table (it only toggles `FK` flags). -/
theorem groupAttrs_proj_processFkRow (tables : List String) (st : ExportState) (r : Row)
    (n : String) :
    (groupAttrs (processFkRow tables st r) n).map (List.map projAttr) =
      (groupAttrs st n).map (List.map projAttr) := by
  have hmap : ∀ gs : List GroupedEntry,
      ((lookupGroup gs n).map (fun g => g.attributes)).map (List.map projAttr) =
        (lookupGroup gs n).map (fun g => g.attributes.map projAttr) := by
    intro gs; rcases lookupGroup gs n with _ | g <;> rfl
  rcases grouped_processFkRow tables st r with h | ⟨f, _, h⟩ <;>
    simp [groupAttrs, h, hmap, lookupGroup_markFk_proj]

theorem names_markFk (gs : List GroupedEntry) (t c : String) :
    (markFk gs t c).map (fun g => g.name) = gs.map (fun g => g.name) := markFk_names gs t c

theorem names_processFkRow (tables : List String) (st : ExportState) (r : Row) :
    (processFkRow tables st r).grouped.map (fun g => g.name) =
      st.grouped.map (fun g => g.name) := by
  rcases grouped_processFkRow tables st r with h | ⟨f, _, h⟩ <;> simp [h, markFk_names]

theorem names_processColumnRow (ids : Nat → String) (tables : List String)
    (st : ExportState) (r : ColumnRow) :
    (processColumnRow ids tables st r).grouped.map (fun g => g.name) =
      st.grouped.map (fun g => g.name) ∨
      ((processColumnRow ids tables st r).grouped.map (fun g => g.name) =
        st.grouped.map (fun g => g.name) ++ [r.tableName] ∧
        lookupGroup st.grouped r.tableName = none ∧ r.tableName ∈ tables) := by
  by_cases hmem : r.tableName ∈ tables
  · rcases hl : lookupGroup st.grouped r.tableName with _ | g
    · right
      refine ⟨?_, rfl, hmem⟩
      simp [processColumnRow, hmem, hl]
    · left; simp [processColumnRow, hmem, hl, appendAttr_names]
  · left; simp [processColumnRow, hmem]

/-! ### Relationship-list evolution -/

theorem rels_processColumnRow (ids : Nat → String) (tables : List String)
    (st : ExportState) (r : ColumnRow) :
    (processColumnRow ids tables st r).rels = st.rels := by
  by_cases hmem : r.tableName ∈ tables
  · rcases hl : lookupGroup st.grouped r.tableName with _ | g <;>
      simp [processColumnRow, hmem, hl]
  · simp [processColumnRow, hmem]

theorem rels_colFold (ids : Nat → String) (tables : List String)
    (rows : List ColumnRow) (st : ExportState) :
    (rows.foldl (processColumnRow ids tables) st).rels = st.rels := by
  induction rows generalizing st with
  | nil => rfl
  | cons r rs ih => rw [List.foldl_cons, ih, rels_processColumnRow]

/-- Case analysis of one foreign-key row: either nothing is appended, or
exactly the relationship built from the row's six fields is. -/
theorem rels_processFkRow (tables : List String) (st : ExportState) (r : Row) :
    (processFkRow tables st r).rels = st.rels ∨
      ∃ f, parseFkRow r = some f ∧ f.fkTable ∈ tables ∧ f.pkTable ∈ tables ∧
        ∃ gp gf,
          lookupGroup (markFk st.grouped f.fkTable f.fkColumn) f.pkTable = some gp ∧
          lookupGroup (markFk st.grouped f.fkTable f.fkColumn) f.fkTable = some gf ∧
          (processFkRow tables st r).rels = st.rels ++ [mkRelationship gp.id gf.id f] := by
  rcases hp : parseFkRow r with _ | f
  · left; simp [processFkRow, hp]
  · by_cases hsc : f.fkTable ∈ tables ∧ f.pkTable ∈ tables
    · rcases hgp : lookupGroup (markFk st.grouped f.fkTable f.fkColumn) f.pkTable with _ | gp
      · left; simp [processFkRow, hp, hsc, hgp]
      · rcases hgf : lookupGroup (markFk st.grouped f.fkTable f.fkColumn) f.fkTable with _ | gf
        · left; simp [processFkRow, hp, hsc, hgp, hgf]
        · right
          exact ⟨f, rfl, hsc.1, hsc.2, gp, gf, hgp, hgf,
            by simp [processFkRow, hp, hsc, hgp, hgf]⟩
    · left; simp [processFkRow, hp, hsc]

/-! ### Per-schema and whole-export master lemmas -/

theorem groupAttrs_proj_fkFold (tables : List String) (fks : List Row)
    (st : ExportState) (n : String) :
    (groupAttrs (fks.foldl (processFkRow tables) st) n).map (List.map projAttr) =
      (groupAttrs st n).map (List.map projAttr) := by
  induction fks generalizing st with
  | nil => rfl
  | cons r rs ih => rw [List.foldl_cons, ih, groupAttrs_proj_processFkRow]

theorem groupAttrs_proj_processSchema (ids : Nat → String) (st : ExportState)
    (s : SchemaInput) (n : String) :
    (groupAttrs (processSchema ids st s) n).map (List.map projAttr) =
      pushNew ((groupAttrs st n).map (List.map projAttr)) (scopedProj s n) := by
  unfold processSchema
  by_cases h : s.tables = []
  · have : n ∉ s.tables := by rw [h]; exact List.not_mem_nil n
    simp [h, scopedProj, this, pushNew_nil]
  · simp only [h, if_false]
    rw [groupAttrs_proj_fkFold, groupAttrs_colFold, pushNew_map]
    congr 1
    by_cases hmem : n ∈ s.tables
    · simp [scopedProj, hmem, List.map_map, Function.comp, attrOfRow, projAttr]
    · simp [scopedProj, hmem]

theorem groupAttrs_proj_schemaFold (ids : Nat → String) (inputs : List SchemaInput)
    (st : ExportState) (n : String) :
    (groupAttrs (inputs.foldl (processSchema ids) st) n).map (List.map projAttr) =
      pushNew ((groupAttrs st n).map (List.map projAttr))
        (inputs.flatMap (fun s => scopedProj s n)) := by
  induction inputs generalizing st with
  | nil => simp [pushNew_nil]
  | cons s ss ih =>
    rw [List.foldl_cons, ih, groupAttrs_proj_processSchema, pushNew_append, List.flatMap_cons]

/-- The grouped attributes of the final export state, projected: the
concatenation over all schemas of the in-scope catalog rows of table `n`,
present exactly when that concatenation is non-empty. -/
theorem groupAttrs_proj_final (ids : Nat → String) (inputs : List SchemaInput) (n : String) :
    (groupAttrs (inputs.foldl (processSchema ids) ⟨[], [], 0⟩) n).map (List.map projAttr) =
      pushNew none (inputs.flatMap (fun s => scopedProj s n)) := by
  rw [groupAttrs_proj_schemaFold]
  rfl

theorem lookupGroup_final_isSome (ids : Nat → String) (inputs : List SchemaInput) (n : String) :
    (lookupGroup (inputs.foldl (processSchema ids) ⟨[], [], 0⟩).grouped n).isSome ↔
      inputs.flatMap (fun s => scopedProj s n) ≠ [] := by
  have h := groupAttrs_proj_final ids inputs n
  have h1 : (lookupGroup (inputs.foldl (processSchema ids) ⟨[], [], 0⟩).grouped n).isSome =
      ((groupAttrs (inputs.foldl (processSchema ids) ⟨[], [], 0⟩) n).map
        (List.map projAttr)).isSome := by
    unfold groupAttrs
    rcases lookupGroup (inputs.foldl (processSchema ids) ⟨[], [], 0⟩).grouped n with _ | g <;> rfl
  rw [h1, h]
  cases hfm : inputs.flatMap (fun s => scopedProj s n) with
  | nil => simp [pushNew]
  | cons x xs => simp [pushNew]

/-! ### Invariants: distinct entity names, non-empty attribute lists -/

theorem nodup_names_processColumnRow (ids : Nat → String) (tables : List String)
    (st : ExportState) (r : ColumnRow)
    (h : (st.grouped.map (fun g => g.name)).Nodup) :
    ((processColumnRow ids tables st r).grouped.map (fun g => g.name)).Nodup := by
  rcases names_processColumnRow ids tables st r with he | ⟨he, hl, _⟩
  · rw [he]; exact h
  · rw [he]
    rw [List.nodup_append]
    refine ⟨h, List.nodup_singleton _, ?_⟩
    intro x hx hx'
    have hxn : x = r.tableName := by simpa using hx'
    subst hxn
    rcases List.mem_map.mp hx with ⟨g, hg, hgn⟩
    exact (lookupGroup_eq_none_iff _ _ |>.mp hl) g hg hgn

theorem nodup_names_colFold (ids : Nat → String) (tables : List String)
    (rows : List ColumnRow) (st : ExportState)
    (h : (st.grouped.map (fun g => g.name)).Nodup) :
    (((rows.foldl (processColumnRow ids tables) st).grouped).map (fun g => g.name)).Nodup := by
  induction rows generalizing st with
  | nil => exact h
  | cons r rs ih => exact ih _ (nodup_names_processColumnRow ids tables st r h)

theorem nodup_names_fkFold (tables : List String) (fks : List Row) (st : ExportState)
    (h : (st.grouped.map (fun g => g.name)).Nodup) :
    (((fks.foldl (processFkRow tables) st).grouped).map (fun g => g.name)).Nodup := by
  induction fks generalizing st with
  | nil => exact h
  | cons r rs ih =>
    refine ih _ ?_
    rw [names_processFkRow]
    exact h

theorem nodup_names_processSchema (ids : Nat → String) (st : ExportState) (s : SchemaInput)
    (h : (st.grouped.map (fun g => g.name)).Nodup) :
    (((processSchema ids st s).grouped).map (fun g => g.name)).Nodup := by
  unfold processSchema
  by_cases he : s.tables = []
  · simpa [he] using h
  · simp only [he, if_false]
    exact nodup_names_fkFold _ _ _ (nodup_names_colFold _ _ _ _ h)

theorem nodup_names_schemaFold (ids : Nat → String) (inputs : List SchemaInput)
    (st : ExportState) (h : (st.grouped.map (fun g => g.name)).Nodup) :
    (((inputs.foldl (processSchema ids) st).grouped).map (fun g => g.name)).Nodup := by
  induction inputs generalizing st with
  | nil => exact h
  | cons s ss ih => exact ih _ (nodup_names_processSchema ids st s h)

theorem attrs_ne_nil_processColumnRow (ids : Nat → String) (tables : List String)
    (st : ExportState) (r : ColumnRow)
    (h : ∀ g ∈ st.grouped, g.attributes ≠ []) :
    ∀ g ∈ (processColumnRow ids tables st r).grouped, g.attributes ≠ [] := by
  intro g hg
  by_cases hmem : r.tableName ∈ tables
  · rcases hl : lookupGroup st.grouped r.tableName with _ | g0
    · simp only [processColumnRow, hmem, if_true, hl] at hg
      rcases List.mem_append.mp hg with hg' | hg'
      · exact h g hg'
      · have : g = ⟨r.tableName, ids st.counter, [attrOfRow r]⟩ := by simpa using hg'
        rw [this]
        simp
    · simp only [processColumnRow, hmem, if_true, hl] at hg
      unfold appendAttr at hg
      rcases List.mem_map.mp hg with ⟨g0', hg0', hgu⟩
      by_cases hn : g0'.name = r.tableName
      · rw [← hgu]
        simp [hn]
      · rw [← hgu]
        simp only [hn, if_false]
        exact h g0' hg0'
  · simp only [processColumnRow, hmem, if_false] at hg
    exact h g hg

theorem attrs_ne_nil_processFkRow (tables : List String) (st : ExportState) (r : Row)
    (h : ∀ g ∈ st.grouped, g.attributes ≠ []) :
    ∀ g ∈ (processFkRow tables st r).grouped, g.attributes ≠ [] := by
  intro g hg
  rcases grouped_processFkRow tables st r with he | ⟨f, _, he⟩
  · rw [he] at hg; exact h g hg
  · rw [he] at hg
    unfold markFk at hg
    rcases List.mem_map.mp hg with ⟨g0, hg0, hgu⟩
    by_cases hn : g0.name = f.fkTable
    · rw [← hgu]
      simp only [hn, if_true]
      simpa using h g0 hg0
    · rw [← hgu]
      simp only [hn, if_false]
      exact h g0 hg0

theorem attrs_ne_nil_processSchema (ids : Nat → String) (st : ExportState) (s : SchemaInput)
    (h : ∀ g ∈ st.grouped, g.attributes ≠ []) :
    ∀ g ∈ (processSchema ids st s).grouped, g.attributes ≠ [] := by
  unfold processSchema
  by_cases he : s.tables = []
  · simpa [he] using h
  · simp only [he, if_false]
    have h1 : ∀ g ∈ (s.schemaData.foldl (processColumnRow ids s.tables) st).grouped,
        g.attributes ≠ [] := by
      clear he
      induction s.schemaData generalizing st with
      | nil => exact h
      | cons r rs ih => exact ih _ (attrs_ne_nil_processColumnRow ids s.tables st r h)
    clear he h
    generalize (s.schemaData.foldl (processColumnRow ids s.tables) st) = st1 at h1
    induction s.foreignKeys generalizing st1 with
    | nil => exact h1
    | cons r rs ih => exact ih _ (attrs_ne_nil_processFkRow s.tables st1 r h1)

theorem attrs_ne_nil_schemaFold (ids : Nat → String) (inputs : List SchemaInput)
    (st : ExportState) (h : ∀ g ∈ st.grouped, g.attributes ≠ []) :
    ∀ g ∈ ((inputs.foldl (processSchema ids) st).grouped), g.attributes ≠ [] := by
  induction inputs generalizing st with
  | nil => exact h
  | cons s ss ih => exact ih _ (attrs_ne_nil_processSchema ids st s h)

/-! ### Where emitted relationships come from -/

/-- Every relationship present after the foreign-key loop either was
there before or is the relationship literal of some row of the loop,
validated against the scope. -/
theorem mem_rels_fkFold (tables : List String) (fks : List Row) (st : ExportState)
    (rel : Relationship) (h : rel ∈ (fks.foldl (processFkRow tables) st).rels) :
    rel ∈ st.rels ∨
      ∃ r ∈ fks, ∃ f, parseFkRow r = some f ∧
        f.fkTable ∈ tables ∧ f.pkTable ∈ tables ∧
        ∃ pid fid, rel = mkRelationship pid fid f := by
  induction fks generalizing st with
  | nil => exact Or.inl h
  | cons r rs ih =>
    rw [List.foldl_cons] at h
    rcases ih _ h with h' | ⟨r', hr', f, hp, h1, h2, pid, fid, he⟩
    · rcases rels_processFkRow tables st r with he | ⟨f, hp, h1, h2, gp, gf, _, _, he⟩
      · rw [he] at h'; exact Or.inl h'
      · rw [he] at h'
        rcases List.mem_append.mp h' with h'' | h''
        · exact Or.inl h''
        · right
          refine ⟨r, List.mem_cons_self r rs, f, hp, h1, h2, gp.id, gf.id, ?_⟩
          simpa using h''
    · exact Or.inr ⟨r', List.mem_cons_of_mem r hr', f, hp, h1, h2, pid, fid, he⟩

theorem mem_rels_processSchema (ids : Nat → String) (st : ExportState) (s : SchemaInput)
    (rel : Relationship) (h : rel ∈ (processSchema ids st s).rels) :
    rel ∈ st.rels ∨
      ∃ r ∈ s.foreignKeys, ∃ f, parseFkRow r = some f ∧
        f.fkTable ∈ s.tables ∧ f.pkTable ∈ s.tables ∧
        ∃ pid fid, rel = mkRelationship pid fid f := by
  unfold processSchema at h
  by_cases he : s.tables = []
  · rw [if_pos he] at h; exact Or.inl h
  · rw [if_neg he] at h
    rcases mem_rels_fkFold _ _ _ _ h with h' | h'
    · rw [rels_colFold] at h'; exact Or.inl h'
    · exact Or.inr h'

theorem mem_rels_schemaFold (ids : Nat → String) (inputs : List SchemaInput)
    (st : ExportState) (rel : Relationship)
    (h : rel ∈ (inputs.foldl (processSchema ids) st).rels) :
    rel ∈ st.rels ∨
      ∃ s ∈ inputs, ∃ r ∈ s.foreignKeys, ∃ f, parseFkRow r = some f ∧
        f.fkTable ∈ s.tables ∧ f.pkTable ∈ s.tables ∧
        ∃ pid fid, rel = mkRelationship pid fid f := by
  induction inputs generalizing st with
  | nil => exact Or.inl h
  | cons s ss ih =>
    rw [List.foldl_cons] at h
    rcases ih _ h with h' | ⟨s', hs', rest⟩
    · rcases mem_rels_processSchema ids st s rel h' with h'' | h''
      · exact Or.inl h''
      · exact Or.inr ⟨s, List.mem_cons_self s ss, h''⟩
    · exact Or.inr ⟨s', List.mem_cons_of_mem s hs', rest⟩

/-- Every relationship of the exported document is the literal built
from some raw foreign-key row of some processed schema whose two tables
passed the scope check. -/
theorem mem_rels_export (inputs : List SchemaInput) (ids : Nat → String) (rel : Relationship)
    (h : rel ∈ (snowflake_export inputs ids).relationships) :
    ∃ s ∈ inputs, ∃ r ∈ s.foreignKeys, ∃ f, parseFkRow r = some f ∧
      f.fkTable ∈ s.tables ∧ f.pkTable ∈ s.tables ∧
      ∃ pid fid, rel = mkRelationship pid fid f := by
  unfold snowflake_export at h
  simp only at h
  rcases mem_rels_schemaFold ids inputs ⟨[], [], 0⟩ rel h with h' | h'
  · cases h'
  · exact h'

/-! ### From the final state to the exported document -/

theorem export_entities_names (inputs : List SchemaInput) (ids : Nat → String) :
    (snowflake_export inputs ids).entities.map (fun e => e.name) =
      ((inputs.foldl (processSchema ids) ⟨[], [], 0⟩).grouped).map (fun g => g.name) := by
  unfold snowflake_export
  simp [List.map_map, Function.comp]

theorem export_names_nodup (inputs : List SchemaInput) (ids : Nat → String) :
    ((snowflake_export inputs ids).entities.map (fun e => e.name)).Nodup := by
  rw [export_entities_names]
  exact nodup_names_schemaFold ids inputs _ (by simp)

theorem export_mem_entities (inputs : List SchemaInput) (ids : Nat → String) (e : Entity)
    (he : e ∈ (snowflake_export inputs ids).entities) :
    ∃ g ∈ (inputs.foldl (processSchema ids) ⟨[], [], 0⟩).grouped,
      e = ⟨g.id, g.name, g.attributes⟩ := by
  unfold snowflake_export at he
  simp only [List.mem_map] at he
  obtain ⟨g, hg, hge⟩ := he
  exact ⟨g, hg, hge.symm⟩

/-- The attributes of every exported entity, projected to
(name, PK, data type), are the concatenation over all schemas of the
in-scope catalog rows of that entity's table. -/
theorem export_entity_attrs_proj (inputs : List SchemaInput) (ids : Nat → String) (e : Entity)
    (he : e ∈ (snowflake_export inputs ids).entities) :
    e.attributes.map projAttr = inputs.flatMap (fun s => scopedProj s e.name) := by
  obtain ⟨g, hg, hge⟩ := export_mem_entities inputs ids e he
  have hnd := nodup_names_schemaFold ids inputs ⟨[], [], 0⟩ (by simp)
  have hfind := lookupGroup_of_mem_nodup _ g hnd hg
  have hmaster := groupAttrs_proj_final ids inputs g.name
  unfold groupAttrs at hmaster
  rw [hfind] at hmaster
  subst hge
  simp only
  cases hl : inputs.flatMap (fun s => scopedProj s g.name) with
  | nil =>
    rw [hl] at hmaster
    simp [pushNew] at hmaster
  | cons x xs =>
    rw [hl] at hmaster
    simpa [pushNew] using hmaster

/-- An entity with a given name is exported exactly when some processed
schema has that name in scope with at least one column-catalog row. -/
theorem export_entity_exists_iff (inputs : List SchemaInput) (ids : Nat → String) (n : String) :
    (∃ e ∈ (snowflake_export inputs ids).entities, e.name = n) ↔
      ∃ s ∈ inputs, n ∈ s.tables ∧ ∃ r ∈ s.schemaData, r.tableName = n := by
  have h1 : (∃ e ∈ (snowflake_export inputs ids).entities, e.name = n) ↔
      ∃ g ∈ (inputs.foldl (processSchema ids) ⟨[], [], 0⟩).grouped, g.name = n := by
    constructor
    · rintro ⟨e, he, hen⟩
      obtain ⟨g, hg, hge⟩ := export_mem_entities inputs ids e he
      exact ⟨g, hg, by rw [hge] at hen; exact hen⟩
    · rintro ⟨g, hg, hgn⟩
      refine ⟨⟨g.id, g.name, g.attributes⟩, ?_, hgn⟩
      unfold snowflake_export
      simpa using List.mem_map_of_mem (fun g : GroupedEntry => (⟨g.id, g.name, g.attributes⟩ : Entity)) hg
  rw [h1, ← lookupGroup_isSome_iff, lookupGroup_final_isSome]
  rw [Ne, List.flatMap_eq_nil_iff]
  push_neg
  constructor
  · rintro ⟨s, hs, hne⟩
    refine ⟨s, hs, ?_⟩
    unfold scopedProj at hne
    by_cases hmem : n ∈ s.tables
    · refine ⟨hmem, ?_⟩
      rw [if_pos hmem] at hne
      by_contra hno
      push_neg at hno
      refine hne ?_
      rw [List.map_eq_nil_iff, List.filter_eq_nil_iff]
      intro r hr
      simpa using hno r hr
    · rw [if_neg hmem] at hne
      exact absurd rfl hne
  · rintro ⟨s, hs, hmem, r, hr, hrn⟩
    refine ⟨s, hs, ?_⟩
    unfold scopedProj
    rw [if_pos hmem]
    intro hcontra
    rw [List.map_eq_nil_iff, List.filter_eq_nil_iff] at hcontra
    exact hcontra r hr (by simp [hrn])

/-- A column-catalog row in scope for some processed schema contributes
its column name to the exported entity of its table. -/
theorem export_column_mem (inputs : List SchemaInput) (ids : Nat → String) (e : Entity)
    (he : e ∈ (snowflake_export inputs ids).entities) (s' : SchemaInput)
    (hs' : s' ∈ inputs) (hmem : e.name ∈ s'.tables) (cr : ColumnRow)
    (hcr : cr ∈ s'.schemaData) (hct : cr.tableName = e.name) :
    cr.columnName ∈ e.attributes.map (fun x => x.name) := by
  have h := export_entity_attrs_proj inputs ids e he
  have hmemproj : (cr.columnName, cr.isPk, cr.dataType) ∈
      inputs.flatMap (fun s => scopedProj s e.name) := by
    rw [List.mem_flatMap]
    refine ⟨s', hs', ?_⟩
    unfold scopedProj
    rw [if_pos hmem]
    exact List.mem_map_of_mem _ (List.mem_filter.mpr ⟨hcr, by simp [hct]⟩)
  rw [← h] at hmemproj
  rcases List.mem_map.mp hmemproj with ⟨a, ha, hae⟩
  have han : a.name = cr.columnName := congrArg Prod.fst hae
  rw [← han]
  exact List.mem_map_of_mem _ ha

/-- C5: every Relationship emitted by the export carries the referenced
(PK) table as its `sourceEntity` with `startType = "one"` and attribute
names `[pk_column]`, and the referencing (FK) table as its
`targetEntity` with `endType = "many"` and attribute names
`[fk_column]`, where the six fields come from the raw foreign-key row
the relationship was built from. -/
theorem C5_relationship_orientation (inputs : List SchemaInput) (ids : Nat → String)
    (rel : Relationship) (h : rel ∈ (snowflake_export inputs ids).relationships) :
    rel.sourceEntity.typ = "one" ∧ rel.targetEntity.typ = "many" ∧
      ∃ s ∈ inputs, ∃ r ∈ s.foreignKeys, ∃ f, parseFkRow r = some f ∧
        rel.sourceEntity.name = f.pkTable ∧ rel.sourceEntity.attributeNames = [f.pkColumn] ∧
        rel.targetEntity.name = f.fkTable ∧ rel.targetEntity.attributeNames = [f.fkColumn] ∧
        rel.description = [] := by
  obtain ⟨s, hs, r, hr, f, hp, _, _, pid, fid, he⟩ := mem_rels_export inputs ids rel h
  subst he
  exact ⟨rfl, rfl, s, hs, r, hr, f, hp, rfl, rfl, rfl, rfl, rfl⟩

/-- Witness for C5 at the specification's ORDERS/CUSTOMERS scenario. -/
theorem C5_relationship_orientation_witness :
    ∃ rel ∈ (snowflake_export [demoInput] demoIds).relationships,
      rel.sourceEntity.typ = "one" ∧ rel.targetEntity.typ = "many" := by
  have hm : ({ sourceEntity := ⟨"E1", "CUSTOMERS", "one", ["id"]⟩,
               targetEntity := ⟨"E0", "ORDERS", "many", ["customer_id"]⟩,
               description := [] } : Relationship) ∈
      (snowflake_export [demoInput] demoIds).relationships := by decide
  obtain ⟨h1, h2, _⟩ := C5_relationship_orientation [demoInput] demoIds _ hm
  exact ⟨_, hm, h1, h2⟩

/-- C7: for every scope, the export produces exactly one Entity per
in-scope table/view name with at least one column-catalog row, no
Entity for names with zero rows (and no error: the function is total),
and every created entity has a non-empty attribute list. -/
theorem C7_entity_per_nonempty_table (inputs : List SchemaInput) (ids : Nat → String) :
    ((snowflake_export inputs ids).entities.map (fun e => e.name)).Nodup ∧
      (∀ e ∈ (snowflake_export inputs ids).entities, e.attributes ≠ []) ∧
      ∀ n, (∃ e ∈ (snowflake_export inputs ids).entities, e.name = n) ↔
        ∃ s ∈ inputs, n ∈ s.tables ∧ ∃ r ∈ s.schemaData, r.tableName = n := by
  refine ⟨export_names_nodup inputs ids, ?_, fun n => export_entity_exists_iff inputs ids n⟩
  intro e he
  obtain ⟨g, hg, hge⟩ := export_mem_entities inputs ids e he
  have hne := attrs_ne_nil_schemaFold ids inputs ⟨[], [], 0⟩ (by intro g hg'; cases hg') g hg
  rw [hge]
  simpa using hne

/-- Witness for C7: `ORDERS` (which has column rows) is exported, and
the in-scope table `A` of `c4Input` (which has no column rows) is not. -/
theorem C7_entity_per_nonempty_table_witness :
    (∃ e ∈ (snowflake_export [demoInput] demoIds).entities, e.name = "ORDERS") ∧
      ¬ (∃ e ∈ (snowflake_export [c4Input] demoIds).entities, e.name = "A") := by
  constructor
  · exact ((C7_entity_per_nonempty_table [demoInput] demoIds).2.2 "ORDERS").mpr
      ⟨demoInput, by decide, by decide, ⟨"PUBLIC", "ORDERS", "id", true, "NUMBER"⟩, by decide, rfl⟩
  · intro h
    have hc := ((C7_entity_per_nonempty_table [c4Input] demoIds).2.2 "A").mp h
    revert hc
    decide

/-- C9: entities are keyed by table name alone; one entity (with one
identifier) per name, whose attribute list — projected to
(name, PK, data type), the fields the column pass writes — is the
concatenation of the in-scope column-catalog records of that name over
every processed schema. -/
theorem C9_entities_keyed_by_name (inputs : List SchemaInput) (ids : Nat → String) :
    ((snowflake_export inputs ids).entities.map (fun e => e.name)).Nodup ∧
      ∀ e ∈ (snowflake_export inputs ids).entities,
        e.attributes.map (fun a => (a.name, a.pk, a.dataType)) =
          inputs.flatMap (fun s =>
            if e.name ∈ s.tables then
              (s.schemaData.filter (fun r => r.tableName == e.name)).map
                (fun r => (r.columnName, r.isPk, r.dataType))
            else []) := by
  refine ⟨export_names_nodup inputs ids, ?_⟩
  intro e he
  exact export_entity_attrs_proj inputs ids e he

/-- Witness for C9: the same table name `T` in two schemas yields one
entity whose attributes are the concatenation of both schemas' columns. -/
theorem C9_entities_keyed_by_name_witness :
    ∃ e ∈ (snowflake_export [twoSchemaA, twoSchemaB] demoIds).entities,
      e.attributes.map (fun a => (a.name, a.pk, a.dataType)) =
        [("a", true, "NUMBER"), ("b", false, "TEXT")] := by
  have he : (⟨"E0", "T", [⟨"a", true, false, "NUMBER"⟩, ⟨"b", false, false, "TEXT"⟩]⟩ : Entity) ∈
      (snowflake_export [twoSchemaA, twoSchemaB] demoIds).entities := by decide
  refine ⟨_, he, ?_⟩
  rw [(C9_entities_keyed_by_name [twoSchemaA, twoSchemaB] demoIds).2 _ he]
  decide

/-- The grouped names only grow through a column row. -/
theorem names_grow_processColumnRow (ids : Nat → String) (tables : List String)
    (st : ExportState) (r : ColumnRow) (n : String)
    (h : n ∈ st.grouped.map (fun g => g.name)) :
    n ∈ (processColumnRow ids tables st r).grouped.map (fun g => g.name) := by
  rcases names_processColumnRow ids tables st r with he | ⟨he, _, _⟩
  · rw [he]; exact h
  · rw [he]; exact List.mem_append.mpr (Or.inl h)

/-- The invariant "every relationship in the state references names
present in the grouped dict" is preserved by one column row. -/
theorem rels_names_processColumnRow (ids : Nat → String) (tables : List String)
    (st : ExportState) (r : ColumnRow)
    (h : ∀ rel ∈ st.rels, rel.sourceEntity.name ∈ st.grouped.map (fun g => g.name) ∧
      rel.targetEntity.name ∈ st.grouped.map (fun g => g.name)) :
    ∀ rel ∈ (processColumnRow ids tables st r).rels,
      rel.sourceEntity.name ∈ (processColumnRow ids tables st r).grouped.map (fun g => g.name) ∧
      rel.targetEntity.name ∈ (processColumnRow ids tables st r).grouped.map (fun g => g.name) := by
  intro rel hrel
  rw [rels_processColumnRow] at hrel
  obtain ⟨h1, h2⟩ := h rel hrel
  exact ⟨names_grow_processColumnRow ids tables st r _ h1,
    names_grow_processColumnRow ids tables st r _ h2⟩

/-- The same invariant is preserved by one foreign-key row: a
relationship is appended only when both its tables were found in the
grouped dict at that moment. -/
theorem rels_names_processFkRow (tables : List String) (st : ExportState) (r : Row)
    (h : ∀ rel ∈ st.rels, rel.sourceEntity.name ∈ st.grouped.map (fun g => g.name) ∧
      rel.targetEntity.name ∈ st.grouped.map (fun g => g.name)) :
    ∀ rel ∈ (processFkRow tables st r).rels,
      rel.sourceEntity.name ∈ (processFkRow tables st r).grouped.map (fun g => g.name) ∧
      rel.targetEntity.name ∈ (processFkRow tables st r).grouped.map (fun g => g.name) := by
  intro rel hrel
  have hnames := names_processFkRow tables st r
  rw [hnames]
  rcases rels_processFkRow tables st r with he | ⟨f, hp, ht1, ht2, gp, gf, hgp, hgf, he⟩
  · rw [he] at hrel
    exact h rel hrel
  · rw [he] at hrel
    rcases List.mem_append.mp hrel with h' | h'
    · exact h rel h'
    · have hre : rel = mkRelationship gp.id gf.id f := by simpa using h'
      subst hre
      have hgpn : gp.name = f.pkTable := lookupGroup_some_name _ _ _ hgp
      have hgfn : gf.name = f.fkTable := lookupGroup_some_name _ _ _ hgf
      have hmp : gp ∈ markFk st.grouped f.fkTable f.fkColumn :=
        lookupGroup_mem _ gp (by rw [hgpn]; exact hgp)
      have hmf : gf ∈ markFk st.grouped f.fkTable f.fkColumn :=
        lookupGroup_mem _ gf (by rw [hgfn]; exact hgf)
      constructor
      · show f.pkTable ∈ st.grouped.map (fun g => g.name)
        have hmem : gp.name ∈ (markFk st.grouped f.fkTable f.fkColumn).map (fun g => g.name) :=
          List.mem_map_of_mem _ hmp
        rw [markFk_names] at hmem
        exact hgpn ▸ hmem
      · show f.fkTable ∈ st.grouped.map (fun g => g.name)
        have hmem : gf.name ∈ (markFk st.grouped f.fkTable f.fkColumn).map (fun g => g.name) :=
          List.mem_map_of_mem _ hmf
        rw [markFk_names] at hmem
        exact hgfn ▸ hmem

theorem rels_names_colFold (ids : Nat → String) (tables : List String)
    (rows : List ColumnRow) (st : ExportState)
    (h : ∀ rel ∈ st.rels, rel.sourceEntity.name ∈ st.grouped.map (fun g => g.name) ∧
      rel.targetEntity.name ∈ st.grouped.map (fun g => g.name)) :
    ∀ rel ∈ (rows.foldl (processColumnRow ids tables) st).rels,
      rel.sourceEntity.name ∈
        ((rows.foldl (processColumnRow ids tables) st).grouped).map (fun g => g.name) ∧
      rel.targetEntity.name ∈
        ((rows.foldl (processColumnRow ids tables) st).grouped).map (fun g => g.name) := by
  induction rows generalizing st with
  | nil => exact h
  | cons r rs ih => exact ih _ (rels_names_processColumnRow ids tables st r h)

theorem rels_names_fkFold (tables : List String) (fks : List Row) (st : ExportState)
    (h : ∀ rel ∈ st.rels, rel.sourceEntity.name ∈ st.grouped.map (fun g => g.name) ∧
      rel.targetEntity.name ∈ st.grouped.map (fun g => g.name)) :
    ∀ rel ∈ (fks.foldl (processFkRow tables) st).rels,
      rel.sourceEntity.name ∈
        ((fks.foldl (processFkRow tables) st).grouped).map (fun g => g.name) ∧
      rel.targetEntity.name ∈
        ((fks.foldl (processFkRow tables) st).grouped).map (fun g => g.name) := by
  induction fks generalizing st with
  | nil => exact h
  | cons r rs ih => exact ih _ (rels_names_processFkRow tables st r h)

theorem rels_names_processSchema (ids : Nat → String) (st : ExportState) (s : SchemaInput)
    (h : ∀ rel ∈ st.rels, rel.sourceEntity.name ∈ st.grouped.map (fun g => g.name) ∧
      rel.targetEntity.name ∈ st.grouped.map (fun g => g.name)) :
    ∀ rel ∈ (processSchema ids st s).rels,
      rel.sourceEntity.name ∈ ((processSchema ids st s).grouped).map (fun g => g.name) ∧
      rel.targetEntity.name ∈ ((processSchema ids st s).grouped).map (fun g => g.name) := by
  unfold processSchema
  by_cases he : s.tables = []
  · simpa [he] using h
  · simp only [he, if_false]
    exact rels_names_fkFold _ _ _ (rels_names_colFold _ _ _ _ h)

theorem rels_names_schemaFold (ids : Nat → String) (inputs : List SchemaInput)
    (st : ExportState)
    (h : ∀ rel ∈ st.rels, rel.sourceEntity.name ∈ st.grouped.map (fun g => g.name) ∧
      rel.targetEntity.name ∈ st.grouped.map (fun g => g.name)) :
    ∀ rel ∈ (inputs.foldl (processSchema ids) st).rels,
      rel.sourceEntity.name ∈
        ((inputs.foldl (processSchema ids) st).grouped).map (fun g => g.name) ∧
      rel.targetEntity.name ∈
        ((inputs.foldl (processSchema ids) st).grouped).map (fun g => g.name) := by
  induction inputs generalizing st with
  | nil => exact h
  | cons s ss ih => exact ih _ (rels_names_processSchema ids st s h)

/-- Unconditionally, the source and target entity names of every
emitted relationship exist among the exported entities: the append at
snowflake.py line 193 is guarded by both tables being present in
`grouped_rows`, and entries are never removed afterwards. -/
theorem export_rel_entity_names (inputs : List SchemaInput) (ids : Nat → String) :
    ∀ rel ∈ (snowflake_export inputs ids).relationships,
      (∃ e ∈ (snowflake_export inputs ids).entities, e.name = rel.sourceEntity.name) ∧
      (∃ e ∈ (snowflake_export inputs ids).entities, e.name = rel.targetEntity.name) := by
  intro rel hrel
  unfold snowflake_export at hrel
  simp only at hrel
  obtain ⟨h1, h2⟩ :=
    rels_names_schemaFold ids inputs ⟨[], [], 0⟩ (by intro rel h; cases h) rel hrel
  constructor
  · rcases List.mem_map.mp h1 with ⟨g, hg, hgn⟩
    refine ⟨⟨g.id, g.name, g.attributes⟩, ?_, hgn⟩
    unfold snowflake_export
    simpa using List.mem_map_of_mem
      (fun g : GroupedEntry => (⟨g.id, g.name, g.attributes⟩ : Entity)) hg
  · rcases List.mem_map.mp h2 with ⟨g, hg, hgn⟩
    refine ⟨⟨g.id, g.name, g.attributes⟩, ?_, hgn⟩
    unfold snowflake_export
    simpa using List.mem_map_of_mem
      (fun g : GroupedEntry => (⟨g.id, g.name, g.attributes⟩ : Entity)) hg

/-- C2 as frozen is false: `snowflake_export` never checks that the
column names of a foreign-key row occur in the column catalog, so a raw
row can produce a Relationship whose `attributeNames` dangle.  At
`c2Input` the emitted relationship references `A.ghost`, while entity
`A`'s only attribute is `x`. -/
theorem C2_counterexample_dangling_attribute :
    ¬ (∀ rel ∈ (snowflake_export [c2Input] demoIds).relationships,
        ∀ e ∈ (snowflake_export [c2Input] demoIds).entities,
          (e.name = rel.sourceEntity.name →
            ∀ a ∈ rel.sourceEntity.attributeNames, a ∈ e.attributes.map (fun x => x.name)) ∧
          (e.name = rel.targetEntity.name →
            ∀ a ∈ rel.targetEntity.attributeNames, a ∈ e.attributes.map (fun x => x.name))) := by
  decide

/-- C2 (amended): no Relationship references a non-existent entity name
(unconditionally), and — provided every validated foreign-key row's
referenced and referencing columns do occur in the column catalog of the
corresponding in-scope table (the hypothesis the code silently assumes
but never checks) — every attribute name referenced by a Relationship
exists in the attribute list of the entity of that name. -/
theorem C2_amended_no_dangling_refs (inputs : List SchemaInput) (ids : Nat → String) :
    (∀ rel ∈ (snowflake_export inputs ids).relationships,
        (∃ e ∈ (snowflake_export inputs ids).entities, e.name = rel.sourceEntity.name) ∧
        (∃ e ∈ (snowflake_export inputs ids).entities, e.name = rel.targetEntity.name)) ∧
    ((∀ s ∈ inputs, ∀ r ∈ s.foreignKeys, ∀ f, parseFkRow r = some f →
        f.fkTable ∈ s.tables → f.pkTable ∈ s.tables →
        (∃ s' ∈ inputs, f.pkTable ∈ s'.tables ∧
          ∃ cr ∈ s'.schemaData, cr.tableName = f.pkTable ∧ cr.columnName = f.pkColumn) ∧
        (∃ s' ∈ inputs, f.fkTable ∈ s'.tables ∧
          ∃ cr ∈ s'.schemaData, cr.tableName = f.fkTable ∧ cr.columnName = f.fkColumn)) →
      ∀ rel ∈ (snowflake_export inputs ids).relationships,
        ∀ e ∈ (snowflake_export inputs ids).entities,
          (e.name = rel.sourceEntity.name →
            ∀ a ∈ rel.sourceEntity.attributeNames, a ∈ e.attributes.map (fun x => x.name)) ∧
          (e.name = rel.targetEntity.name →
            ∀ a ∈ rel.targetEntity.attributeNames, a ∈ e.attributes.map (fun x => x.name))) := by
  constructor
  · exact export_rel_entity_names inputs ids
  · intro H rel hrel
    obtain ⟨s, hs, r, hr, f, hp, h1, h2, pid, fid, he⟩ := mem_rels_export inputs ids rel hrel
    obtain ⟨⟨s1, hs1, hm1, cr1, hcr1, hct1, hcc1⟩, ⟨s2, hs2, hm2, cr2, hcr2, hct2, hcc2⟩⟩ :=
      H s hs r hr f hp h1 h2
    subst he
    intro e he
    constructor
    · intro hen a ha
      have hax : a = f.pkColumn := by simpa [mkRelationship] using ha
      subst hax
      rw [← hcc1]
      exact export_column_mem inputs ids e he s1 hs1 (by rw [hen]; exact hm1) cr1 hcr1
        (by rw [hct1, hen]; rfl)
    · intro hen a ha
      have hax : a = f.fkColumn := by simpa [mkRelationship] using ha
      subst hax
      rw [← hcc2]
      exact export_column_mem inputs ids e he s2 hs2 (by rw [hen]; exact hm2) cr2 hcr2
        (by rw [hct2, hen]; rfl)

/-- Witness for the amended C2 at the ORDERS/CUSTOMERS scenario: the
unconditional conjunct locates the `CUSTOMERS` entity behind the
relationship's source, and under the discharged catalog-occurrence
hypothesis the referenced attribute `id` is found in its list. -/
theorem C2_amended_no_dangling_refs_witness :
    (∃ e ∈ (snowflake_export [demoInput] demoIds).entities, e.name = "CUSTOMERS") ∧
      "id" ∈ (⟨"E1", "CUSTOMERS", [⟨"id", true, false, "NUMBER"⟩]⟩ : Entity).attributes.map
        (fun x => x.name) := by
  have hm : ({ sourceEntity := ⟨"E1", "CUSTOMERS", "one", ["id"]⟩,
               targetEntity := ⟨"E0", "ORDERS", "many", ["customer_id"]⟩,
               description := [] } : Relationship) ∈
      (snowflake_export [demoInput] demoIds).relationships := by decide
  have he : (⟨"E1", "CUSTOMERS", [⟨"id", true, false, "NUMBER"⟩]⟩ : Entity) ∈
      (snowflake_export [demoInput] demoIds).entities := by decide
  constructor
  · exact ((C2_amended_no_dangling_refs [demoInput] demoIds).1 _ hm).1
  · exact ((C2_amended_no_dangling_refs [demoInput] demoIds).2
      (by
        intro s hs r hr f hp hf1 hf2
        have hsd : s = demoInput := by simpa using hs
        subst hsd
        have hrd : r = demoFkRow := by simpa [demoInput] using hr
        subst hrd
        have hfd : f = ⟨"PUBLIC", "ORDERS", "customer_id", "PUBLIC", "CUSTOMERS", "id"⟩ := by
          have hpd : parseFkRow demoFkRow =
              some ⟨"PUBLIC", "ORDERS", "customer_id", "PUBLIC", "CUSTOMERS", "id"⟩ := by decide
          rw [hpd] at hp
          exact (Option.some.inj hp).symm
        subst hfd
        refine ⟨⟨demoInput, by decide, by decide,
          ⟨"PUBLIC", "CUSTOMERS", "id", true, "NUMBER"⟩, by decide, rfl, rfl⟩,
          ⟨demoInput, by decide, by decide,
          ⟨"PUBLIC", "ORDERS", "customer_id", false, "NUMBER"⟩, by decide, rfl, rfl⟩⟩)
      _ hm _ he).1 rfl "id" (by decide)

/-! ### Counting emitted relationships (no deduplication) -/

theorem lookupGroup_isSome_of_names_eq (gs gs' : List GroupedEntry)
    (h : gs.map (fun g => g.name) = gs'.map (fun g => g.name)) (n : String) :
    (lookupGroup gs n).isSome = (lookupGroup gs' n).isSome := by
  rw [Bool.eq_iff_iff, lookupGroup_isSome_iff, lookupGroup_isSome_iff]
  constructor
  · rintro ⟨g, hg, hgn⟩
    have : n ∈ gs'.map (fun g => g.name) := by
      rw [← h]
      exact List.mem_map.mpr ⟨g, hg, hgn⟩
    rcases List.mem_map.mp this with ⟨g', hg', hgn'⟩
    exact ⟨g', hg', hgn'⟩
  · rintro ⟨g, hg, hgn⟩
    have : n ∈ gs.map (fun g => g.name) := by
      rw [h]
      exact List.mem_map.mpr ⟨g, hg, hgn⟩
    rcases List.mem_map.mp this with ⟨g', hg', hgn'⟩
    exact ⟨g', hg', hgn'⟩

/-- Whether a foreign-key row reaches the append depends only on the
names present in the grouped dict. -/
theorem fkEmits_congr (tables : List String) (gs gs' : List GroupedEntry)
    (h : gs.map (fun g => g.name) = gs'.map (fun g => g.name)) (r : Row) :
    fkEmits tables gs r = fkEmits tables gs' r := by
  unfold fkEmits
  rcases parseFkRow r with _ | f
  · rfl
  · dsimp only
    have hnames : (markFk gs f.fkTable f.fkColumn).map (fun g => g.name) =
        (markFk gs' f.fkTable f.fkColumn).map (fun g => g.name) := by
      rw [markFk_names, markFk_names, h]
    rw [lookupGroup_isSome_of_names_eq _ _ hnames f.pkTable,
        lookupGroup_isSome_of_names_eq _ _ hnames f.fkTable]

/-- One foreign-key row appends exactly one relationship when it passes
all checks, and none otherwise. -/
theorem rels_length_processFkRow (tables : List String) (st : ExportState) (r : Row) :
    (processFkRow tables st r).rels.length =
      st.rels.length + (if fkEmits tables st.grouped r then 1 else 0) := by
  rcases hp : parseFkRow r with _ | f
  · simp [processFkRow, fkEmits, hp]
  · by_cases hsc : f.fkTable ∈ tables ∧ f.pkTable ∈ tables
    · rcases hgp : lookupGroup (markFk st.grouped f.fkTable f.fkColumn) f.pkTable with _ | gp
      · simp [processFkRow, fkEmits, hp, hsc, hgp]
      · rcases hgf : lookupGroup (markFk st.grouped f.fkTable f.fkColumn) f.fkTable with _ | gf
        · simp [processFkRow, fkEmits, hp, hsc, hgp, hgf]
        · simp [processFkRow, fkEmits, hp, hsc.1, hsc.2, hsc, hgp, hgf]
    · simp only [processFkRow, hp, hsc, if_false]
      have : fkEmits tables st.grouped r = false := by
        unfold fkEmits
        rw [hp]
        rcases Decidable.not_and_iff_or_not.mp hsc with hn | hn <;> simp [hn]
      simp [this]

theorem countP_replicate_eval {α : Type} (p : α → Bool) (n : Nat) (a : α) :
    (List.replicate n a).countP p = if p a then n else 0 := by
  induction n with
  | zero => simp
  | succ k ih =>
    rw [List.replicate_succ, List.countP_cons, ih]
    cases h : p a <;> simp [h]

/-- The foreign-key loop of one schema appends one relationship per raw
row that passes the checks — occurrences are counted, not deduplicated. -/
theorem rels_length_fkFold (tables : List String) (fks : List Row) (st : ExportState) :
    (fks.foldl (processFkRow tables) st).rels.length =
      st.rels.length + fks.countP (fkEmits tables st.grouped) := by
  induction fks generalizing st with
  | nil => simp
  | cons r rs ih =>
    rw [List.foldl_cons, ih, rels_length_processFkRow]
    have hc : rs.countP (fkEmits tables (processFkRow tables st r).grouped) =
        rs.countP (fkEmits tables st.grouped) :=
      List.countP_congr (fun x _ => by
        rw [fkEmits_congr tables _ _ (names_processFkRow tables st r) x])
    rw [hc, List.countP_cons]
    cases h : fkEmits tables st.grouped r
    · simp [h]
    · simp [h]
      omega

/-- C1 as frozen is false: the export performs no deduplication.  At
`dupInput` — the ORDERS/CUSTOMERS scenario with the same
(ORDERS, customer_id, CUSTOMERS, id) raw row reported twice — two
Relationships are emitted, not exactly one. -/
theorem C1_counterexample_duplicate_rows :
    (snowflake_export [dupInput] demoIds).relationships.length = 2 ∧
      (snowflake_export [dupInput] demoIds).relationships.length ≠ 1 := by
  decide

/-- C1 (amended): the export emits exactly one Relationship per raw
foreign-key row occurrence that passes the validation checks, so a
(source table, source column, target table, target column) 4-tuple
appearing n times among the raw rows yields n Relationships, not one:
the foreign-key loop adds `countP fkEmits` relationships, a row
replicated n times adds n, and a single-schema export emits exactly the
count of validated raw rows. -/
theorem C1_amended_one_relationship_per_row :
    (∀ (tables : List String) (fks : List Row) (st : ExportState),
        (fks.foldl (processFkRow tables) st).rels.length =
          st.rels.length + fks.countP (fkEmits tables st.grouped)) ∧
    (∀ (tables : List String) (st : ExportState) (r : Row) (n : Nat),
        ((List.replicate n r).foldl (processFkRow tables) st).rels.length =
          st.rels.length + (if fkEmits tables st.grouped r then n else 0)) ∧
    (∀ (s : SchemaInput) (ids : Nat → String),
        (snowflake_export [s] ids).relationships.length =
          if s.tables = [] then 0
          else s.foreignKeys.countP
            (fkEmits s.tables
              ((s.schemaData.foldl (processColumnRow ids s.tables) ⟨[], [], 0⟩).grouped))) := by
  refine ⟨rels_length_fkFold, ?_, ?_⟩
  · intro tables st r n
    rw [rels_length_fkFold, countP_replicate_eval]
  · intro s ids
    unfold snowflake_export
    simp only [List.foldl_cons, List.foldl_nil]
    unfold processSchema
    by_cases h : s.tables = []
    · simp [h]
    · simp only [h, if_false]
      rw [rels_length_fkFold, rels_colFold]
      simp

/-! ### Claims about edge skipping, the fetchers and the import -/

/-- C4 as frozen is false: for the in-scope edge `B.y → A.x` of
`c4Input`, the referenced table `A` has no grouped Column records, yet
the export still sets the FK flag on `B.y` while emitting no
Relationship — the edge is not "skipped entirely". -/
theorem C4_counterexample_fk_flag_without_relationship :
    (snowflake_export [c4Input] demoIds).relationships = [] ∧
      (snowflake_export [c4Input] demoIds).entities.map
          (fun e => (e.name, e.attributes.map (fun a => (a.name, a.fk)))) =
        [("B", [("y", true)])] := by
  decide

/-- C4 (amended): a foreign-key row with a missing key, or whose
referencing or referenced table is out of scope, is skipped entirely
(state unchanged).  For an in-scope edge, the FK flag pass (`markFk`) is
applied to the referencing column regardless of whether the referenced
table has grouped Columns, and a Relationship is appended iff both
tables have grouped entries; the flag lands in the serialized document
(final conjunct: the scenario document carries `FK = true` on
`ORDERS.customer_id`). -/
theorem C4_amended_edge_skipping :
    (∀ (tables : List String) (st : ExportState) (r : Row),
        parseFkRow r = none → processFkRow tables st r = st) ∧
    (∀ (tables : List String) (st : ExportState) (r : Row) (f : FkParsed),
        parseFkRow r = some f → (f.fkTable ∉ tables ∨ f.pkTable ∉ tables) →
        processFkRow tables st r = st) ∧
    (∀ (tables : List String) (st : ExportState) (r : Row) (f : FkParsed),
        parseFkRow r = some f → f.fkTable ∈ tables → f.pkTable ∈ tables →
        (processFkRow tables st r).grouped = markFk st.grouped f.fkTable f.fkColumn ∧
        (processFkRow tables st r).rels.length =
          st.rels.length +
            (if (lookupGroup st.grouped f.pkTable).isSome ∧
                (lookupGroup st.grouped f.fkTable).isSome then 1 else 0)) ∧
    ((snowflake_export [demoInput] demoIds).entities.map
        (fun e => (e.name, e.attributes.map (fun a => (a.name, a.fk)))) =
      [("ORDERS", [("id", false), ("customer_id", true)]), ("CUSTOMERS", [("id", false)])]) := by
  refine ⟨?_, ?_, ?_, by decide⟩
  · intro tables st r h
    simp [processFkRow, h]
  · intro tables st r f hp hsc
    have hc : ¬ (f.fkTable ∈ tables ∧ f.pkTable ∈ tables) := by
      rcases hsc with h | h
      · exact fun hc => h hc.1
      · exact fun hc => h hc.2
    simp [processFkRow, hp, hc]
  · intro tables st r f hp h1 h2
    have hbp : (lookupGroup (markFk st.grouped f.fkTable f.fkColumn) f.pkTable).isSome
        = (lookupGroup st.grouped f.pkTable).isSome :=
      lookupGroup_isSome_of_names_eq _ _ (markFk_names st.grouped f.fkTable f.fkColumn) f.pkTable
    have hbf : (lookupGroup (markFk st.grouped f.fkTable f.fkColumn) f.fkTable).isSome
        = (lookupGroup st.grouped f.fkTable).isSome :=
      lookupGroup_isSome_of_names_eq _ _ (markFk_names st.grouped f.fkTable f.fkColumn) f.fkTable
    constructor
    · simp only [processFkRow, hp, if_pos (And.intro h1 h2)]
      rcases lookupGroup (markFk st.grouped f.fkTable f.fkColumn) f.pkTable with _ | gp <;>
        rcases lookupGroup (markFk st.grouped f.fkTable f.fkColumn) f.fkTable with _ | gf <;> rfl
    · rw [rels_length_processFkRow]
      congr 1
      unfold fkEmits
      rw [hp]
      dsimp only
      rw [hbp, hbf]
      simp [h1, h2, Bool.and_eq_true]

/-- Witness for the amended C4: the out-of-scope edge leaves the state
untouched, and the in-scope edge of `c4Input` applied to the empty state
marks (vacuously) and appends nothing. -/
theorem C4_amended_edge_skipping_witness :
    processFkRow ["ORDERS"] ⟨[], [], 0⟩ demoFkRow = ⟨[], [], 0⟩ ∧
      (processFkRow ["A", "B"] ⟨[], [], 0⟩ c4FkRow).grouped = [] ∧
      (processFkRow ["A", "B"] ⟨[], [], 0⟩ c4FkRow).rels.length = 0 := by
  refine ⟨?_, ?_, ?_⟩
  · exact C4_amended_edge_skipping.2.1 ["ORDERS"] ⟨[], [], 0⟩ demoFkRow
      ⟨"PUBLIC", "ORDERS", "customer_id", "PUBLIC", "CUSTOMERS", "id"⟩
      (by decide) (Or.inr (by decide))
  · rw [(C4_amended_edge_skipping.2.2.1 ["A", "B"] ⟨[], [], 0⟩ c4FkRow
      ⟨"S", "B", "y", "S", "A", "x"⟩ (by decide) (by decide) (by decide)).1]
    rfl
  · rw [(C4_amended_edge_skipping.2.2.1 ["A", "B"] ⟨[], [], 0⟩ c4FkRow
      ⟨"S", "B", "y", "S", "A", "x"⟩ (by decide) (by decide) (by decide)).2]
    rfl

/-- C3 as frozen is false: on a connectivity failure raised by the
client during the query, `_get_tables_and_views` does not raise (there
is no `FetchError` anywhere in the code): the `except` clauses swallow
the exception and the function returns the empty list. -/
theorem C3_counterexample_error_swallowed :
    get_tables_and_views (.error "250001 (08001): could not connect to Snowflake backend")
        (.error "250001 (08001): could not connect to Snowflake backend") true = [] ∧
      get_foreign_keys (.error "250001 (08001): could not connect to Snowflake backend")
        (.error "250001 (08001): could not connect to Snowflake backend")
        (.error "250001 (08001): could not connect to Snowflake backend") = [] := by
  exact ⟨rfl, rfl⟩

/-- C3 (amended): the fetchers never raise at all.  An empty result
yields `[]`; a failure of any underlying query is caught, logged and
swallowed, also yielding `[]` (never an exception); a non-empty primary
result is returned as-is. -/
theorem C3_amended_never_raises :
    (∀ iv : Bool, get_tables_and_views (.ok []) (.ok []) iv = []) ∧
    (∀ (e : String) (f : Except String (List Row)) (iv : Bool),
        get_tables_and_views (.error e) f iv = []) ∧
    (∀ (e : String) (iv : Bool), get_tables_and_views (.ok []) (.error e) iv = []) ∧
    (∀ (r : Row) (rs : List Row) (f : Except String (List Row)) (iv : Bool),
        get_tables_and_views (.ok (r :: rs)) f iv = r :: rs) ∧
    (∀ e1 e2 e3 : String, get_foreign_keys (.error e1) (.error e2) (.error e3) = []) := by
  refine ⟨?_, ?_, ?_, ?_, ?_⟩
  · intro iv; cases iv <;> rfl
  · intro e f iv; rfl
  · intro e iv; rfl
  · intro r rs f iv
    simp [get_tables_and_views]
  · intro e1 e2 e3; rfl

/-- C6: foreign-key retrieval takes the first of the three strategies
that returns at least one row — later results are irrelevant once an
earlier one is non-empty, and a later strategy is reached only when each
earlier one returned zero rows or raised (`noRows`).  Rows that arrive
via strategy 3 are remapped from the alternate uppercase column names
into the canonical lowercase keys, and (final conjunct) such a row still
produces the correctly mapped Relationship in the export. -/
theorem C6_fk_strategy_order :
    (∀ (r : Row) (rs : List Row) (m2 m3 : Except String (List Row)),
        get_foreign_keys (.ok (r :: rs)) m2 m3 = r :: rs) ∧
    (∀ (m1 : Except String (List Row)) (r : Row) (rs : List Row)
        (m3 : Except String (List Row)),
        noRows m1 → get_foreign_keys m1 (.ok (r :: rs)) m3 = r :: rs) ∧
    (∀ (m1 m2 : Except String (List Row)) (r : Row) (rs : List Row),
        noRows m1 → noRows m2 →
        get_foreign_keys m1 m2 (.ok (r :: rs)) = (r :: rs).map remapShowImportedKeysRow) ∧
    ((snowflake_export
        [{ demoInput with foreignKeys := get_foreign_keys (.ok []) (.ok []) (.ok [upperRow]) }]
        demoIds).relationships.map
          (fun rel => (rel.sourceEntity.name, rel.sourceEntity.typ,
            rel.sourceEntity.attributeNames, rel.targetEntity.name, rel.targetEntity.typ,
            rel.targetEntity.attributeNames)) =
      [("CUSTOMERS", "one", ["id"], "ORDERS", "many", ["customer_id"])]) := by
  refine ⟨?_, ?_, ?_, by decide⟩
  · intro r rs m2 m3; rfl
  · rintro m1 r rs m3 (h | ⟨e, h⟩) <;> subst h <;> rfl
  · rintro m1 m2 r rs (h1 | ⟨e1, h1⟩) (h2 | ⟨e2, h2⟩) <;> subst h1 <;> subst h2 <;> rfl

/-- Witness for C6: strategies 1 and 2 yield no usable rows (empty and
error respectively), strategy 3's uppercase row is taken and remapped. -/
theorem C6_fk_strategy_order_witness :
    get_foreign_keys (.ok []) (.error "permission denied") (.ok [upperRow]) =
      [remapShowImportedKeysRow upperRow] := by
  exact C6_fk_strategy_order.2.2.1 (.ok []) (.error "permission denied") upperRow []
    (Or.inl rfl) (Or.inr ⟨_, rfl⟩)

/-- C10: `ellie_model_import` writes exactly `model['model']['name']`
and `model['model']['level']` (overwriting whatever the export put
there) and leaves the entities, relationships and folderId of the
document unchanged before posting it. -/
theorem C10_import_frame (nm lvl : String) (m : Model) :
    (ellie_model_import_model nm lvl m).name = some nm ∧
    (ellie_model_import_model nm lvl m).level = lvl ∧
    (ellie_model_import_model nm lvl m).entities = m.entities ∧
    (ellie_model_import_model nm lvl m).relationships = m.relationships ∧
    (ellie_model_import_model nm lvl m).folderId = m.folderId := by
  exact ⟨rfl, rfl, rfl, rfl, rfl⟩

/-! ### Identifier erasure commutes with the export pipeline -/

theorem lookupEntryE_map (gs : List GroupedEntry) (n : String) :
    lookupEntryE (gs.map eraseGroupedEntry) n = (lookupGroup gs n).map eraseGroupedEntry := by
  unfold lookupEntryE lookupGroup
  rw [List.find?_map]
  rfl

theorem appendAttr_erase (gs : List GroupedEntry) (n : String) (a : Attribute) :
    (appendAttr gs n a).map eraseGroupedEntry =
      (gs.map eraseGroupedEntry).map (fun g => if g.1 = n then (g.1, g.2 ++ [a]) else g) := by
  unfold appendAttr
  rw [List.map_map, List.map_map]
  apply List.map_congr_left
  intro g _
  by_cases h : g.name = n <;> simp [eraseGroupedEntry, Function.comp, h]

theorem markFk_erase (gs : List GroupedEntry) (t c : String) :
    (markFk gs t c).map eraseGroupedEntry = markFkE (gs.map eraseGroupedEntry) t c := by
  unfold markFk markFkE
  rw [List.map_map, List.map_map]
  apply List.map_congr_left
  intro g _
  by_cases h : g.name = t <;> simp [eraseGroupedEntry, Function.comp, h]

theorem eraseState_processColumnRow (ids : Nat → String) (tables : List String)
    (st : ExportState) (r : ColumnRow) :
    eraseState (processColumnRow ids tables st r) =
      processColumnRowE tables (eraseState st) r := by
  by_cases hmem : r.tableName ∈ tables
  · rcases hl : lookupGroup st.grouped r.tableName with _ | g
    · have hle : lookupEntryE (st.grouped.map eraseGroupedEntry) r.tableName = none := by
        rw [lookupEntryE_map, hl]
        rfl
      simp [processColumnRow, processColumnRowE, hmem, hl, hle, eraseState, eraseGroupedEntry]
    · have hle : lookupEntryE (st.grouped.map eraseGroupedEntry) r.tableName
          = some (eraseGroupedEntry g) := by
        rw [lookupEntryE_map, hl]
        rfl
      simp [processColumnRow, processColumnRowE, hmem, hl, hle, eraseState, appendAttr_erase]
  · simp [processColumnRow, processColumnRowE, hmem]

theorem eraseState_processFkRow (tables : List String) (st : ExportState) (r : Row) :
    eraseState (processFkRow tables st r) = processFkRowE tables (eraseState st) r := by
  rcases hp : parseFkRow r with _ | f
  · simp [processFkRow, processFkRowE, hp]
  · by_cases hsc : f.fkTable ∈ tables ∧ f.pkTable ∈ tables
    · have key : ∀ x : String,
          lookupEntryE (markFkE (eraseState st).grouped f.fkTable f.fkColumn) x
            = (lookupGroup (markFk st.grouped f.fkTable f.fkColumn) x).map eraseGroupedEntry := by
        intro x
        show lookupEntryE (markFkE (st.grouped.map eraseGroupedEntry) f.fkTable f.fkColumn) x = _
        rw [← markFk_erase, lookupEntryE_map]
      rcases hgp : lookupGroup (markFk st.grouped f.fkTable f.fkColumn) f.pkTable with _ | gp
      · have hL : processFkRow tables st r =
            { st with grouped := markFk st.grouped f.fkTable f.fkColumn } := by
          simp [processFkRow, hp, hsc, hgp]
        have h1 := key f.pkTable
        rw [hgp] at h1
        have hR : processFkRowE tables (eraseState st) r =
            ⟨markFkE (eraseState st).grouped f.fkTable f.fkColumn, (eraseState st).rels⟩ := by
          simp only [processFkRowE, hp, hsc, if_true, and_self]
          rw [h1]
          rcases lookupEntryE (markFkE (eraseState st).grouped f.fkTable f.fkColumn) f.fkTable
            with _ | u <;> rfl
        rw [hL, hR]
        simp [eraseState, markFk_erase]
      · rcases hgf : lookupGroup (markFk st.grouped f.fkTable f.fkColumn) f.fkTable with _ | gf
        · have hL : processFkRow tables st r =
              { st with grouped := markFk st.grouped f.fkTable f.fkColumn } := by
            simp [processFkRow, hp, hsc, hgp, hgf]
          have h1 := key f.pkTable
          rw [hgp] at h1
          have h2 := key f.fkTable
          rw [hgf] at h2
          have hR : processFkRowE tables (eraseState st) r =
              ⟨markFkE (eraseState st).grouped f.fkTable f.fkColumn, (eraseState st).rels⟩ := by
            simp only [processFkRowE, hp, hsc, if_true, and_self]
            rw [h1, h2]
            rfl
          rw [hL, hR]
          simp [eraseState, markFk_erase]
        · have hL : processFkRow tables st r =
              { st with grouped := markFk st.grouped f.fkTable f.fkColumn,
                        rels := st.rels ++ [mkRelationship gp.id gf.id f] } := by
            simp [processFkRow, hp, hsc, hgp, hgf]
          have h1 := key f.pkTable
          rw [hgp] at h1
          have h2 := key f.fkTable
          rw [hgf] at h2
          have hR : processFkRowE tables (eraseState st) r =
              ⟨markFkE (eraseState st).grouped f.fkTable f.fkColumn,
               (eraseState st).rels ++
                 [((f.pkTable, "one", [f.pkColumn]), (f.fkTable, "many", [f.fkColumn]), [])]⟩ := by
            simp only [processFkRowE, hp, hsc, if_true, and_self]
            rw [h1, h2]
            rfl
          rw [hL, hR]
          simp [eraseState, markFk_erase, mkRelationship, eraseRelationship, eraseRelEnd]
    · simp [processFkRow, processFkRowE, hp, hsc]

theorem eraseState_colFold (ids : Nat → String) (tables : List String)
    (rows : List ColumnRow) (st : ExportState) :
    eraseState (rows.foldl (processColumnRow ids tables) st) =
      rows.foldl (processColumnRowE tables) (eraseState st) := by
  induction rows generalizing st with
  | nil => rfl
  | cons r rs ih =>
    rw [List.foldl_cons, List.foldl_cons, ih, eraseState_processColumnRow]

theorem eraseState_fkFold (tables : List String) (fks : List Row) (st : ExportState) :
    eraseState (fks.foldl (processFkRow tables) st) =
      fks.foldl (processFkRowE tables) (eraseState st) := by
  induction fks generalizing st with
  | nil => rfl
  | cons r rs ih =>
    rw [List.foldl_cons, List.foldl_cons, ih, eraseState_processFkRow]

theorem eraseState_processSchema (ids : Nat → String) (st : ExportState) (s : SchemaInput) :
    eraseState (processSchema ids st s) = processSchemaE (eraseState st) s := by
  unfold processSchema processSchemaE
  by_cases h : s.tables = []
  · simp [h]
  · simp only [h, if_false]
    rw [eraseState_fkFold, eraseState_colFold]

theorem eraseState_schemaFold (ids : Nat → String) (inputs : List SchemaInput)
    (st : ExportState) :
    eraseState (inputs.foldl (processSchema ids) st) =
      inputs.foldl processSchemaE (eraseState st) := by
  induction inputs generalizing st with
  | nil => rfl
  | cons s ss ih =>
    rw [List.foldl_cons, List.foldl_cons, ih, eraseState_processSchema]

/-- Everything of the exported document except the generated entity
identifiers is a function of the query results alone. -/
theorem eraseModel_export (inputs : List SchemaInput) (ids : Nat → String) :
    eraseModel (snowflake_export inputs ids) = snowflake_exportE inputs := by
  unfold snowflake_export snowflake_exportE eraseModel
  have h := eraseState_schemaFold ids inputs ⟨[], [], 0⟩
  have hinit : eraseState ⟨[], [], 0⟩ = (⟨[], []⟩ : EState) := rfl
  rw [hinit] at h
  simp only
  have hent : ((inputs.foldl (processSchema ids) ⟨[], [], 0⟩).grouped.map
        (fun g => (⟨g.id, g.name, g.attributes⟩ : Entity))).map eraseEntity =
      (inputs.foldl processSchemaE ⟨[], []⟩).grouped := by
    rw [← h]
    show _ = (inputs.foldl (processSchema ids) ⟨[], [], 0⟩).grouped.map eraseGroupedEntry
    rw [List.map_map]
    rfl
  have hrel : (inputs.foldl (processSchema ids) ⟨[], [], 0⟩).rels.map eraseRelationship =
      (inputs.foldl processSchemaE ⟨[], []⟩).rels := by
    rw [← h]
    rfl
  rw [hent, hrel]

/-- C8: two runs of the export against identical catalog query results
produce documents with identical entity names, identical per-entity
attribute lists (names, PK/FK flags, data types, order) and identical
relationship structure (names, attribute names, cardinalities): erasing
the generated identifiers makes the two documents equal, so only those
identifiers may differ between runs. -/
theorem C8_idempotence_up_to_ids (inputs : List SchemaInput) (ids1 ids2 : Nat → String) :
    eraseModel (snowflake_export inputs ids1) = eraseModel (snowflake_export inputs ids2) := by
  rw [eraseModel_export, eraseModel_export]
